import Mathlib

/-!
Shallow embedding of the ClipNest main-process core (Electron `main/index.ts`,
most recent revision) together with the renderer-side consumer logic
(`App.tsx`).  Pure functions of the source are translated to Lean functions;
stateful code (the electron-store metadata table, the filesystem, the IPC
event stream) is modelled by explicit state passing.  External effects
(ffmpeg/ffprobe invocations, `fs` syscalls) are supplied by explicit
environment records, so each handler becomes a deterministic function of its
environment.
-/

namespace ClipNest

/-! ## Data model (`main/index.ts` interfaces) -/

/-- `VideoMetadata` from `main/index.ts`: the persisted per-path user
metadata.  Optional JS fields become `Option`. -/
structure VideoMetadata where
  isFavorite : Bool
  tags : List String
  lastPlayedTime : Option Nat
  productCode : Option String
  deriving Repr, DecidableEq

/-- The zero-value default returned by `getVideoMetadata` for an absent key:
`{ isFavorite: false, tags: [] }`. -/
def defaultMetadata : VideoMetadata :=
  { isFavorite := false, tags := [], lastPlayedTime := none, productCode := none }

/-- `VideoFile` from `main/index.ts`. -/
structure VideoFile where
  id : String
  name : String
  path : String
  size : Nat
  createdAt : String
  extension : String
  thumbnailPath : Option String
  duration : Option Int
  isFavorite : Bool
  tags : List String
  lastPlayedTime : Option Nat
  productCode : Option String
  deriving Repr, DecidableEq

/-- `WatchedFolder` from `main/index.ts`. -/
structure WatchedFolder where
  path : String
  name : String
  videoCount : Nat
  deriving Repr, DecidableEq

/-! ## Metadata store (`electron-store` table `videoMetadata`)

The JS object `Record<string, VideoMetadata>` is modelled as an association
list with unique keys; `allMetadata[k] = v` replaces in place or appends,
`delete allMetadata[k]` removes the key. -/

abbrev MetadataTable := List (String × VideoMetadata)

/-- Lookup of `allMetadata[filePath]`, `none` when absent. -/
def lookupMeta : MetadataTable → String → Option VideoMetadata
  | [], _ => none
  | (k, v) :: rest, p => if k = p then some v else lookupMeta rest p

/-- `getVideoMetadata`: `allMetadata[filePath] || { isFavorite: false, tags: [] }`. -/
def getVideoMetadata (tbl : MetadataTable) (filePath : String) : VideoMetadata :=
  (lookupMeta tbl filePath).getD defaultMetadata

/-- JS object assignment `allMetadata[filePath] = metadata`: replace the
existing binding in place, or append a new one. -/
def setMeta : MetadataTable → String → VideoMetadata → MetadataTable
  | [], p, m => [(p, m)]
  | (k, v) :: rest, p, m =>
      if k = p then (k, m) :: rest else (k, v) :: setMeta rest p m

/-- `saveVideoMetadata`. -/
def saveVideoMetadata (tbl : MetadataTable) (filePath : String)
    (metadata : VideoMetadata) : MetadataTable :=
  setMeta tbl filePath metadata

/-- JS `delete allMetadata[oldPath]`. -/
def deleteMeta (tbl : MetadataTable) (p : String) : MetadataTable :=
  tbl.filter (fun kv => kv.1 ≠ p)

/-! ## `toggle-favorite` handler -/

/-- The `toggle-favorite` IPC handler: reads the metadata for `filePath`,
negates `isFavorite`, saves, and returns the new value. -/
def toggleFavorite (tbl : MetadataTable) (filePath : String) :
    MetadataTable × Bool :=
  let metadata := getVideoMetadata tbl filePath
  let metadata' := { metadata with isFavorite := !metadata.isFavorite }
  (saveVideoMetadata tbl filePath metadata', metadata'.isFavorite)

/-! ## Watched folders (`addWatchedFolder` / `removeWatchedFolder`) -/

/-- `addWatchedFolder`: `findIndex` on equal `path`; replace in place when
found, append otherwise. -/
def addWatchedFolder (folders : List WatchedFolder) (folder : WatchedFolder) :
    List WatchedFolder :=
  match folders.findIdx? (fun f => f.path = folder.path) with
  | some i => folders.set i folder
  | none => folders ++ [folder]

/-- `removeWatchedFolder`: keep the folders whose path differs. -/
def removeWatchedFolder (folders : List WatchedFolder) (folderPath : String) :
    List WatchedFolder :=
  folders.filter (fun f => f.path ≠ folderPath)

/-! ## Path helpers (Node `path` module, POSIX separators)

`join`, `basename`, `extname` from Node are modelled for canonical
'/'-separated absolute paths, which is what the handlers pass around. -/

/-- Node `path.join(dir, name)` for a simple file name. -/
def joinPath (dir name : String) : String := dir ++ "/" ++ name

/-- Split a character list at a separator (kernel-reducible core of the
string splitting used below). -/
def splitOnChar (sep : Char) : List Char → List (List Char)
  | [] => [[]]
  | c :: rest =>
      match splitOnChar sep rest with
      | [] => [[]]
      | g :: gs => if c = sep then [] :: g :: gs else (c :: g) :: gs

/-- ASCII lowercasing, `s.toLowerCase()`. -/
def strToLower (s : String) : String := String.mk (s.data.map Char.toLower)

/-- Split a string at a separator character. -/
def splitStr (sep : Char) (s : String) : List String :=
  (splitOnChar sep s.data).map (fun cs => String.mk cs)

/-- Join components with `/`. -/
def joinComponents : List String → String
  | [] => ""
  | [s] => s
  | s :: rest => s ++ "/" ++ joinComponents rest

/-- `a.endsWith b` on the underlying character lists. -/
def endsWithStr (a b : String) : Bool := b.data.isSuffixOf a.data

/-- `s.dropRight n` on the underlying character list. -/
def dropRightStr (s : String) (n : Nat) : String :=
  String.mk (s.data.take (s.data.length - n))

/-- Split a path into its components. -/
def splitPath (p : String) : List String := splitStr '/' p

/-- Node `path.basename(p)`. -/
def basenameOf (p : String) : String := (splitPath p).getLastD ""

/-- Node `path.extname(p)`: the suffix of the basename from its last dot;
empty for dotfiles and names without a dot. -/
def extnameOf (p : String) : String :=
  let b := basenameOf p
  let parts := splitStr '.' b
  if parts.length ≤ 1 then ""
  else if parts.headD "" = "" ∧ parts.length = 2 then ""
  else "." ++ parts.getLastD ""

/-- Node `path.basename(p, ext)`: the basename with a trailing `ext`
stripped when it is a proper suffix. -/
def basenameDrop (p ext : String) : String :=
  let b := basenameOf p
  if b ≠ ext ∧ ext ≠ "" ∧ endsWithStr b ext then dropRightStr b ext.length else b

/-- Node `path.join(p, '..')`: drop the last component. -/
def dirnameOf (p : String) : String :=
  let parts := splitPath p
  if parts.length ≤ 1 then "." else joinComponents parts.dropLast

/-! ## Duration prober (`getVideoDuration`)

`ffmpeg.ffprobe` is the external prober: it either errors or yields a
format block whose `duration` field is an optional (possibly fractional)
number of seconds.  The handler resolves
`duration ? Math.floor(duration) : null`; note that JS truthiness makes a
reported duration of `0` fall into the `null` branch. -/

/-- The `metadata.format` block read from ffprobe. -/
structure FfprobeFormat where
  duration : Option ℚ
  deriving DecidableEq

/-- `getVideoDuration`: `null` on probe error, otherwise
`duration ? Math.floor(duration) : null`. -/
def getVideoDuration (probe : Except String FfprobeFormat) : Option Int :=
  match probe with
  | .error _ => none
  | .ok fmt =>
      match fmt.duration with
      | none => none
      | some d => if d = 0 then none else some ⌊d⌋

/-! ## Thumbnail cache

The on-disk artifact namespace is modelled as the list of existing file
paths.  The external extractor's per-invocation outcome is an explicit
boolean. -/

/-- `fs.access`-based existence check (`thumbnailExists`). -/
def thumbnailExists (fs : List String) (thumbnailPath : String) : Bool :=
  fs.contains thumbnailPath

/-- Write a file: the path becomes (or stays) present. -/
def writeFile (fs : List String) (p : String) : List String :=
  if fs.contains p then fs else fs ++ [p]

/-- `generateThumbnail(videoPath, videoId, thumbnailsDir)`: the artifact is
written to `thumbnailsDir/{videoId}_v2.jpg`; on extractor success that path
is returned, on failure `null`.  `ok` is the extractor outcome for this
invocation. -/
def generateThumbnail (ok : Bool) (videoPath videoId thumbnailsDir : String)
    (fs : List String) : List String × Option String :=
  let thumbnailFilename := videoId ++ "_v2.jpg"
  let thumbnailPath := joinPath thumbnailsDir thumbnailFilename
  if ok then (writeFile fs thumbnailPath, some thumbnailPath)
  else (fs, none)

/-- The scan's per-file thumbnail step (`scan-folder-progressive`, cached
thumbnail check): probe `thumbnailsDir/{pathHash}_v3.jpg`; on a hit return
it, otherwise invoke the extractor.  The `Nat` counts extractor
invocations. -/
def thumbStep (ok : Bool) (fs : List String)
    (filePath pathHash thumbnailsDir : String) :
    List String × Option String × Nat :=
  let cachedThumbnailPath := joinPath thumbnailsDir (pathHash ++ "_v3.jpg")
  if thumbnailExists fs cachedThumbnailPath then (fs, some cachedThumbnailPath, 0)
  else
    let (fs', r) := generateThumbnail ok filePath pathHash thumbnailsDir fs
    (fs', r, 1)

/-- Two successive thumbnail-cache calls for the same `(path, cacheKey)`,
threading the artifact directory state; returns the final state and the
total number of extractor invocations. -/
def thumbTwice (ok₁ ok₂ : Bool) (fs : List String)
    (filePath pathHash thumbnailsDir : String) : List String × Nat :=
  let (fs₁, _, c₁) := thumbStep ok₁ fs filePath pathHash thumbnailsDir
  let (fs₂, _, c₂) := thumbStep ok₂ fs₁ filePath pathHash thumbnailsDir
  (fs₂, c₁ + c₂)

/-! ## Progressive folder scan (`scan-folder-progressive` handler)

External effects of one handler invocation, supplied as a deterministic
environment: the `readdir` outcome, the two `stat` calls per file (the
filter pass and the processing pass are separate syscalls), the extractor
and prober outcomes per path, `randomUUID`, the SHA-256 path hash, and the
`event.sender.isDestroyed()` answer at the k-th liveness check. -/

/-- The supported extension set from `main/index.ts`. -/
def VIDEO_EXTENSIONS : List String :=
  [".mp4", ".mkv", ".mov", ".webm", ".avi", ".wmv", ".flv", ".m4v"]

/-- Result of `fs.stat` when it succeeds. -/
structure FileInfo where
  isDirectory : Bool
  size : Nat
  birthtimeISO : String
  deriving Repr, DecidableEq

/-- Environment of one `scan-folder-progressive` invocation. -/
structure ScanEnv where
  readdirResult : Option (List String)
  statFilter : String → Option FileInfo
  statProcess : String → Option FileInfo
  extractorOk : String → Bool
  probeResult : String → Except String FfprobeFormat
  uuid : String → String
  hashPath : String → String
  destroyed : Nat → Bool

/-- A value carried by an IPC `send`. -/
inductive IpcValue
  | str (s : String)
  | video (v : VideoFile)
  | num (n : Nat)
  deriving Repr, DecidableEq

/-- One `event.sender.send(channel, ...args)` call. -/
structure Emission where
  channel : String
  args : List IpcValue
  deriving Repr, DecidableEq

/-- Observable steps of one scan: starting to process a candidate file, or
sending an IPC event. -/
inductive TraceItem
  | processStart (file : String)
  | emit (e : Emission)
  deriving Repr, DecidableEq

/-- The filter pass: keep the directory entries whose lowercased extension
is supported and that stat as non-directories; entries whose stat throws
are skipped. -/
def filterVideoFiles (env : ScanEnv) (folderPath : String) :
    List String → List String
  | [] => []
  | file :: rest =>
      let extension := strToLower (extnameOf file)
      if VIDEO_EXTENSIONS.contains extension then
        match env.statFilter (joinPath folderPath file) with
        | some st =>
            if st.isDirectory then filterVideoFiles env folderPath rest
            else file :: filterVideoFiles env folderPath rest
        | none => filterVideoFiles env folderPath rest
      else filterVideoFiles env folderPath rest

/-- Assembly of one `VideoFile` record after a successful processing-pass
stat: thumbnail step, duration probe, metadata lookup.  Returns the record
and the updated thumbnail directory state. -/
def buildRecord (env : ScanEnv) (tbl : MetadataTable) (fs : List String)
    (folderPath thumbnailsDir file : String) (fileStat : FileInfo) :
    VideoFile × List String :=
  let filePath := joinPath folderPath file
  let extension := strToLower (extnameOf file)
  let videoId := env.uuid filePath
  let videoName := basenameDrop file extension
  let pathHash := env.hashPath filePath
  let (fs₁, thumbnailPath, _) :=
    thumbStep (env.extractorOk filePath) fs filePath pathHash thumbnailsDir
  let duration := getVideoDuration (env.probeResult filePath)
  let metadata := getVideoMetadata tbl filePath
  ({ id := videoId
   , name := videoName
   , path := filePath
   , size := fileStat.size
   , createdAt := fileStat.birthtimeISO
   , extension := extension
   , thumbnailPath := thumbnailPath
   , duration := duration
   , isFavorite := metadata.isFavorite
   , tags := metadata.tags
   , lastPlayedTime := metadata.lastPlayedTime
   , productCode := metadata.productCode }, fs₁)

/-- The per-file processing loop.  For each candidate: stat again (a throw
is caught and skips the file), build the record, check consumer liveness
and either emit the record or stop early.  Returns the trace, the final
thumbnail state, and `some checkIdx` when the loop ran to completion
(`none` when the consumer was detected gone). -/
def processFiles (env : ScanEnv) (tbl : MetadataTable)
    (folderPath thumbnailsDir : String) :
    List String → List String → Nat →
    List TraceItem × List String × Option Nat
  | [], fs, ck => ([], fs, some ck)
  | file :: rest, fs, ck =>
      match env.statProcess (joinPath folderPath file) with
      | none =>
          let (tr, fs', fin) :=
            processFiles env tbl folderPath thumbnailsDir rest fs ck
          (TraceItem.processStart file :: tr, fs', fin)
      | some fileStat =>
          let (videoFile, fs₁) :=
            buildRecord env tbl fs folderPath thumbnailsDir file fileStat
          if env.destroyed ck then
            ([TraceItem.processStart file], fs₁, none)
          else
            let ev := TraceItem.emit
              ⟨"video-file-ready", [IpcValue.video videoFile]⟩
            let (tr, fs', fin) :=
              processFiles env tbl folderPath thumbnailsDir rest fs₁ (ck + 1)
            (TraceItem.processStart file :: ev :: tr, fs', fin)

/-- Outcome of one `scan-folder-progressive` invocation: its observable
trace, the handler's return value `{ totalFiles }`, and the final thumbnail
directory state. -/
structure ScanOutcome where
  trace : List TraceItem
  totalFiles : Nat
  fs : List String
  deriving Repr, DecidableEq

/-- The `scan-folder-progressive` handler.  An enumeration failure falls to
the outer catch, which sends the completion event unconditionally and
returns zero.  Otherwise the candidates are processed in enumeration order
and, unless the consumer disappeared mid-scan, one completion event
carrying the folder path is sent. -/
def scanFolderProgressive (env : ScanEnv) (tbl : MetadataTable)
    (fs₀ : List String) (folderPath thumbnailsDir : String) : ScanOutcome :=
  match env.readdirResult with
  | none =>
      { trace := [TraceItem.emit ⟨"scan-folder-complete", [IpcValue.str folderPath]⟩]
      , totalFiles := 0
      , fs := fs₀ }
  | some files =>
      let videoFileNames := filterVideoFiles env folderPath files
      let totalFiles := videoFileNames.length
      let (tr, fs₁, fin) :=
        processFiles env tbl folderPath thumbnailsDir videoFileNames fs₀ 0
      match fin with
      | none => { trace := tr, totalFiles := totalFiles, fs := fs₁ }
      | some ck =>
          if env.destroyed ck then
            { trace := tr, totalFiles := totalFiles, fs := fs₁ }
          else
            { trace := tr ++
                [TraceItem.emit ⟨"scan-folder-complete", [IpcValue.str folderPath]⟩]
            , totalFiles := totalFiles
            , fs := fs₁ }

/-! ## Renderer-side consumer (`App.tsx`)

The consumer batches incoming `video-file-ready` records in a pending
buffer guarded by a set of lowercased paths, and flushes the buffer into
the rendered list, filtering out records whose lowercased path is already
present.  A flush is triggered by a debounce timer or by the completion
event; flush timing is modelled by explicit `flush` events. -/

/-- The consumer's deduplication key: the lowercased path
(`video.path.toLowerCase()`). -/
def videoKey (v : VideoFile) : String := strToLower v.path

/-- Consumer state: rendered videos, pending batch, and the lowercased
paths of the pending batch. -/
structure ConsumerState where
  videos : List VideoFile
  pending : List VideoFile
  pendingPaths : List String
  deriving Repr, DecidableEq

/-- The initial (empty) consumer state. -/
def initConsumer : ConsumerState := { videos := [], pending := [], pendingPaths := [] }

/-- The `onVideoFileReady` listener: drop the record when its lowercased
path is already pending, otherwise append it to the batch. -/
def onVideoFileReady (s : ConsumerState) (video : VideoFile) : ConsumerState :=
  let lowerPath := videoKey video
  if s.pendingPaths.contains lowerPath then s
  else
    { s with
      pending := s.pending ++ [video]
      pendingPaths := s.pendingPaths ++ [lowerPath] }

/-- `flushPendingVideos`: no-op on an empty batch; otherwise clear the
batch and append to `videos` the pending records whose lowercased path is
not already rendered. -/
def flushPendingVideos (s : ConsumerState) : ConsumerState :=
  if s.pending = [] then s
  else
    let videosToAdd := s.pending
    let existingPaths := s.videos.map videoKey
    let newVideos :=
      videosToAdd.filter (fun v => ¬ existingPaths.contains (videoKey v))
    { videos := s.videos ++ newVideos, pending := [], pendingPaths := [] }

/-- Consumer-side events: a record arriving, or a flush firing (debounce
timeout or scan completion). -/
inductive CEvent
  | ready (v : VideoFile)
  | flush
  deriving Repr, DecidableEq

/-- Process a sequence of consumer events. -/
def runEvents (s : ConsumerState) : List CEvent → ConsumerState
  | [] => s
  | CEvent.ready v :: rest => runEvents (onVideoFileReady s v) rest
  | CEvent.flush :: rest => runEvents (flushPendingVideos s) rest

/-- The records emitted in an event sequence, in emission order. -/
def emittedOf : List CEvent → List VideoFile
  | [] => []
  | CEvent.ready v :: rest => v :: emittedOf rest
  | CEvent.flush :: rest => emittedOf rest

/-- Deduplicate a list by lowercased path, keeping the first occurrence of
each key; `seen` holds the keys already kept. -/
def dedupKeepFirstAux (seen : List String) : List VideoFile → List VideoFile
  | [] => []
  | v :: rest =>
      if seen.contains (videoKey v) then dedupKeepFirstAux seen rest
      else v :: dedupKeepFirstAux (videoKey v :: seen) rest

/-- Deduplication by lowercased path keeping first occurrences. -/
def dedupKeepFirst (l : List VideoFile) : List VideoFile :=
  dedupKeepFirstAux [] l

/-! ## Single-file rename (`rename-video` handler) -/

/-- `fs.rename(src, dst)`: `src` disappears, `dst` is (over)written. -/
def fsRename (fs : List String) (src dst : String) : List String :=
  (fs.filter (fun p => p ≠ src ∧ p ≠ dst)) ++ [dst]

/-- Result shape of the `rename-video` handler. -/
structure RenameResult where
  success : Bool
  newPath : Option String
  error : Option String
  deriving Repr, DecidableEq

/-- The target path of a single-file rename: the new name with the old
extension, next to the source. -/
def renameTarget (oldPath newName : String) : String :=
  joinPath (dirnameOf oldPath) (newName ++ extnameOf oldPath)

/-- The `rename-video` handler: compute the target path next to the source,
refuse when a different file already occupies it, rename (a rename of a
missing source throws into the catch), then migrate the metadata — but
only when `isFavorite` is set or `tags` is nonempty. -/
def renameVideo (fs : List String) (tbl : MetadataTable)
    (oldPath newName : String) :
    List String × MetadataTable × RenameResult :=
  let newPath := renameTarget oldPath newName
  if fs.contains newPath ∧ newPath ≠ oldPath then
    (fs, tbl, { success := false, newPath := none
              , error := some "同じ名前のファイルが既に存在します" })
  else if ¬ fs.contains oldPath then
    (fs, tbl, { success := false, newPath := none
              , error := some "ファイル名の変更に失敗しました" })
  else
    let fs' := fsRename fs oldPath newPath
    let metadata := getVideoMetadata tbl oldPath
    let tbl' :=
      if metadata.isFavorite ∨ metadata.tags ≠ [] then
        deleteMeta (saveVideoMetadata tbl newPath metadata) oldPath
      else tbl
    (fs', tbl', { success := true, newPath := some newPath, error := none })

/-! ## Batch rename (`batch-rename-videos` handler)

The handler's external effects: one `readdir` of the target directory
(whose throw is caught, leaving the taken-number set empty), `existsSync`
probes against the filesystem, and the individual `fs.rename` calls, whose
failures are injected through an explicit set of throwing (src, dst)
pairs.  The `Date.now()` part of the temporary suffix is an environment
string. -/

/-- Environment of one `batch-rename-videos` invocation. -/
structure BatchEnv where
  readdirResult : Option (List String)
  renameFails : List (String × String)
  tempStamp : String

/-- Result shape of the handler. -/
structure BatchResult where
  success : Bool
  results : List (String × String)
  errors : List String
  skipped : Nat
  startNumber : Nat
  deriving Repr, DecidableEq

/-- Decimal digits to a number, as `parseInt(s, 10)` on an all-digit
string. -/
def digitsToNat (s : String) : Nat :=
  s.toList.foldl (fun acc c => acc * 10 + (c.toNat - 48)) 0

/-- The numbered-file pattern `^(\d{3,})\.(mp4|mov|avi|mkv|wmv|flv|webm|m4v)$`
(case-insensitive): the whole name is three-or-more digits, one dot, and a
supported extension; yields the parsed number. -/
def matchNumberPattern (file : String) : Option Nat :=
  match splitStr '.' file with
  | [numStr, extStr] =>
      if 3 ≤ numStr.length ∧ numStr.toList.all Char.isDigit ∧
          ["mp4", "mov", "avi", "mkv", "wmv", "flv", "webm", "m4v"].contains
            (strToLower extStr) then
        some (digitsToNat numStr)
      else none
  | _ => none

/-- The taken sequence numbers: numbers of pattern-matching directory
entries whose full path is not (case-insensitively) in the batch. -/
def computeTaken (videoPaths : List String) (targetDir : String)
    (files : List String) : List Nat :=
  files.foldl
    (fun acc file =>
      match matchNumberPattern file with
      | some num =>
          let filePath := joinPath targetDir file
          if videoPaths.any (fun p => strToLower p = strToLower filePath) then acc
          else if acc.contains num then acc else acc ++ [num]
      | none => acc)
    []

/-- The while-loop allocating the smallest `need` numbers not in `taken`,
counting up from `next`; `fuel` bounds the iteration count (the caller
passes enough fuel for the loop to finish). -/
def genAvailable (taken : List Nat) : Nat → Nat → Nat → List Nat
  | 0, _, _ => []
  | _ + 1, 0, _ => []
  | fuel + 1, need + 1, next =>
      if taken.contains next then genAvailable taken fuel (need + 1) (next + 1)
      else next :: genAvailable taken fuel need (next + 1)

/-- `num.toString().padStart(3, '0')`. -/
def padStart3 (n : Nat) : String :=
  let s := toString n
  if 3 ≤ s.length then s else String.mk (List.replicate (3 - s.length) '0') ++ s

/-- JS `Map.set`: update in place when the key exists, append otherwise
(iteration order is first-insertion order). -/
def assocSet : List (String × String) → String → String → List (String × String)
  | [], k, v => [(k, v)]
  | (k', v') :: rest, k, v =>
      if k' = k then (k', v) :: rest else (k', v') :: assocSet rest k v

/-- State threaded through the validation pass. -/
structure ValState where
  results : List (String × String)
  errors : List String
  skipped : Nat
  used : List String
  newPaths : List (String × String)
  deriving Repr, DecidableEq

/-- The empty validation state. -/
def initVal : ValState :=
  { results := [], errors := [], skipped := 0, used := [], newPaths := [] }

/-- The target path allocated to the input at index `i`. -/
def allocatedTarget (videoPaths : List String) (avail : List Nat) (i : Nat) :
    String :=
  let oldPath := videoPaths.getD i ""
  joinPath (dirnameOf oldPath) (padStart3 (avail.getD i 0) ++ extnameOf oldPath)

/-- The validation pass over the inputs: skip unchanged names, record an
error (up to `MAX_ERRORS = 5`) for collisions with existing out-of-batch
files or duplicate targets within the batch, and otherwise register the
planned rename. -/
def validateAux (fs : List String) (videoPaths : List String)
    (avail : List Nat) : List String → Nat → ValState → ValState
  | [], _, st => st
  | oldPath :: rest, i, st =>
      let dir := dirnameOf oldPath
      let extension := extnameOf oldPath
      let num := padStart3 (avail.getD i 0)
      let newName := num
      let newPath := joinPath dir (newName ++ extension)
      if strToLower newPath = strToLower oldPath then
        validateAux fs videoPaths avail rest (i + 1)
          { st with results := st.results ++ [(oldPath, newPath)]
                  , skipped := st.skipped + 1 }
      else if basenameDrop oldPath extension = num then
        validateAux fs videoPaths avail rest (i + 1)
          { st with results := st.results ++ [(oldPath, oldPath)]
                  , skipped := st.skipped + 1 }
      else if fs.contains newPath ∧
          ¬ videoPaths.any (fun p => strToLower p = strToLower newPath) then
        validateAux fs videoPaths avail rest (i + 1)
          { st with errors :=
              if st.errors.length < 5 then
                st.errors ++ [newName ++ extension ++ " は既に存在します"]
              else st.errors }
      else if st.used.contains (strToLower newPath) then
        validateAux fs videoPaths avail rest (i + 1)
          { st with errors :=
              if st.errors.length < 5 then
                st.errors ++ ["重複: " ++ newName ++ extension]
              else st.errors }
      else
        validateAux fs videoPaths avail rest (i + 1)
          { st with used := st.used ++ [strToLower newPath]
                  , newPaths := assocSet st.newPaths oldPath newPath }

/-- The taken-number set of one invocation (a caught `readdir` failure
leaves it empty). -/
def batchTaken (env : BatchEnv) (videoPaths : List String) : List Nat :=
  match env.readdirResult with
  | some files => computeTaken videoPaths (dirnameOf (videoPaths.headD "")) files
  | none => []

/-- The allocated number list of one invocation. -/
def batchAvail (env : BatchEnv) (videoPaths : List String) : List Nat :=
  let taken := batchTaken env videoPaths
  genAvailable taken (videoPaths.length + taken.length) videoPaths.length 1

/-- The full validation pass of one invocation. -/
def batchValidation (env : BatchEnv) (fs : List String)
    (videoPaths : List String) : ValState :=
  validateAux fs videoPaths (batchAvail env videoPaths) videoPaths 0 initVal

/-- The temporary name used by the two-phase rename:
`{dir}/{base}_temp_{stamp}{ext}`. -/
def tempPathOf (env : BatchEnv) (oldPath : String) : String :=
  let extension := extnameOf oldPath
  joinPath (dirnameOf oldPath)
    (basenameDrop oldPath extension ++ "_temp_" ++ env.tempStamp ++ extension)

/-- Phase 1: rename every source to its temporary name, recording the
performed temp renames; stops at the first throwing rename (`true` flags
the throw). -/
def phase1 (env : BatchEnv) :
    List (String × String) → List String → List (String × String) →
    List String × List (String × String) × Bool
  | [], fs, temps => (fs, temps, false)
  | (oldPath, _) :: rest, fs, temps =>
      let tempPath := tempPathOf env oldPath
      if env.renameFails.contains (oldPath, tempPath) then (fs, temps, true)
      else
        phase1 env rest (fsRename fs oldPath tempPath)
          (temps ++ [(tempPath, oldPath)])

/-- JS truthiness of the optional `lastPlayedTime` number. -/
def truthyTime : Option Nat → Bool
  | none => false
  | some t => t ≠ 0

/-- Phase 2: rename each temporary name to its final target, drop the
entry from the temp-rename map, and migrate non-empty metadata; stops at
the first throwing rename (`true` flags the throw). -/
def phase2 (env : BatchEnv) :
    List (String × String) → List String → MetadataTable →
    List (String × String) → List (String × String) →
    List String × MetadataTable × List (String × String) ×
      List (String × String) × Bool
  | [], fs, tbl, temps, res => (fs, tbl, temps, res, false)
  | (oldPath, newPath) :: rest, fs, tbl, temps, res =>
      let tempPath := tempPathOf env oldPath
      if env.renameFails.contains (tempPath, newPath) then
        (fs, tbl, temps, res, true)
      else
        let fs' := fsRename fs tempPath newPath
        let temps' := temps.filter (fun t => t.1 ≠ tempPath)
        let metadata := getVideoMetadata tbl oldPath
        let tbl' :=
          if metadata.isFavorite ∨ metadata.tags ≠ [] ∨
              truthyTime metadata.lastPlayedTime then
            deleteMeta (setMeta tbl newPath metadata) oldPath
          else tbl
        phase2 env rest fs' tbl' temps' (res ++ [(oldPath, newPath)])

/-- The best-effort rollback: for each recorded temp rename whose temp file
still exists, rename it back unless that rename itself throws (the failure
is logged, not rethrown). -/
def rollback (env : BatchEnv) :
    List (String × String) → List String → List String
  | [], fs => fs
  | (tempPath, originalPath) :: rest, fs =>
      let fs' :=
        if fs.contains tempPath then
          if env.renameFails.contains (tempPath, originalPath) then fs
          else fsRename fs tempPath originalPath
        else fs
      rollback env rest fs'

/-- The mid-flight failure result (`catch` branch). -/
def batchFailResult : BatchResult :=
  { success := false, results := [], errors := ["一括リネームに失敗しました"]
  , skipped := 0, startNumber := 1 }

/-- The `batch-rename-videos` handler. -/
def batchRenameVideos (env : BatchEnv) (fs : List String)
    (tbl : MetadataTable) (videoPaths : List String) :
    List String × MetadataTable × BatchResult :=
  if videoPaths = [] then
    (fs, tbl, { success := false, results := []
              , errors := ["ファイルが選択されていません"], skipped := 0
              , startNumber := 1 })
  else
    let avail := batchAvail env videoPaths
    let startNumber := avail.headD 1
    let v := batchValidation env fs videoPaths
    if v.errors ≠ [] then
      let errors' :=
        if 5 ≤ v.errors.length then v.errors ++ ["... 他にもエラーがあります"]
        else v.errors
      (fs, tbl, { success := false, results := [], errors := errors'
                , skipped := v.skipped, startNumber := startNumber })
    else
      match phase1 env v.newPaths fs [] with
      | (fs₁, temps₁, true) => (rollback env temps₁ fs₁, tbl, batchFailResult)
      | (fs₁, temps₁, false) =>
          match phase2 env v.newPaths fs₁ tbl temps₁ [] with
          | (fs₂, tbl₂, temps₂, _, true) =>
              (rollback env temps₂ fs₂, tbl₂, batchFailResult)
          | (fs₂, tbl₂, _, res₂, false) =>
              (fs₂, tbl₂, { success := true, results := v.results ++ res₂
                          , errors := [], skipped := v.skipped
                          , startNumber := startNumber })

/-! ## Concrete test fixtures

Small concrete inputs used by witness and counterexample theorems. -/

/-- A plain stat result for scan fixtures. -/
def statFix : FileInfo :=
  { isDirectory := false, size := 2048, birthtimeISO := "2024-01-01T00:00:00.000Z" }

/-- Scan fixture: three entries, two of them supported video files, every
external operation succeeding, consumer alive. -/
def envScanOk : ScanEnv :=
  { readdirResult := some ["a.mp4", "b.txt", "c.mkv"]
  , statFilter := fun _ => some statFix
  , statProcess := fun _ => some statFix
  , extractorOk := fun _ => true
  , probeResult := fun _ => Except.ok ⟨some 9⟩
  , uuid := fun _ => "uuid-1"
  , hashPath := fun p => "h" ++ toString p.length
  , destroyed := fun _ => false }

/-- Scan fixture for failure isolation: three supported files; the duration
probe throws for the second one only. -/
def envScanProbeFail : ScanEnv :=
  { readdirResult := some ["a.mp4", "b.mp4", "c.mp4"]
  , statFilter := fun _ => some statFix
  , statProcess := fun _ => some statFix
  , extractorOk := fun _ => true
  , probeResult := fun p =>
      if p = "/f/b.mp4" then Except.error "boom" else Except.ok ⟨some 9⟩
  , uuid := fun _ => "uuid-1"
  , hashPath := fun p => "h" ++ toString p.length
  , destroyed := fun _ => false }

/-- Consumer fixture: a first record. -/
def vFirst : VideoFile :=
  { id := "1", name := "A", path := "/f/A.mp4", size := 1, createdAt := "2024"
  , extension := ".mp4", thumbnailPath := none, duration := none
  , isFavorite := false, tags := [], lastPlayedTime := none, productCode := none }

/-- Consumer fixture: a later record for the same path up to case. -/
def vSecond : VideoFile := { vFirst with id := "2", path := "/f/a.mp4" }

/-- Batch fixture: eight inputs; the first lives in `/a`, the others in
`/b`, so their allocated targets escape the taken-number scan of the
first file's directory. -/
def pathsBatch7 : List String :=
  ["/a/f.mp4", "/b/g1.mp4", "/b/g2.mp4", "/b/g3.mp4", "/b/g4.mp4"
  , "/b/g5.mp4", "/b/g6.mp4", "/b/g7.mp4"]

/-- Batch fixture: the filesystem holding the inputs plus seven
out-of-batch files occupying the allocated targets `002`–`008` in `/b`. -/
def fsBatch7 : List String :=
  pathsBatch7 ++
  ["/b/002.mp4", "/b/003.mp4", "/b/004.mp4", "/b/005.mp4", "/b/006.mp4"
  , "/b/007.mp4", "/b/008.mp4"]

/-- Batch fixture environment: the target directory lists only the first
input; no rename fails. -/
def envBatch7 : BatchEnv :=
  { readdirResult := some ["f.mp4"], renameFails := [], tempStamp := "111" }

/-- Rollback fixture: two inputs in one directory. -/
def pathsRb : List String := ["/d/x.mp4", "/d/y.mp4"]

/-- Rollback fixture environment: the second phase-2 rename (temp name to
`002.mp4`) throws; everything else succeeds. -/
def envRb : BatchEnv :=
  { readdirResult := some ["x.mp4", "y.mp4"]
  , renameFails := [("/d/y_temp_42.mp4", "/d/002.mp4")]
  , tempStamp := "42" }

/-- Rename fixture: one file whose metadata is non-default only through
`lastPlayedTime`. -/
def fsRen : List String := ["/v/a.mp4"]

/-- Rename fixture metadata table. -/
def tblRen : MetadataTable :=
  [("/v/a.mp4",
    { isFavorite := false, tags := [], lastPlayedTime := some 42
    , productCode := none })]

/-- Rename fixture: one favorited file. -/
def tblRenFav : MetadataTable :=
  [("/v/a.mp4",
    { isFavorite := true, tags := ["keep"], lastPlayedTime := some 7
    , productCode := some "PC-1" })]

/-- Toggle fixture metadata table. -/
def tblTog : MetadataTable :=
  [("/a/one.mp4",
    { isFavorite := true, tags := ["x"], lastPlayedTime := some 3
    , productCode := some "PC" })
  , ("/a/two.mp4",
    { isFavorite := false, tags := ["y"], lastPlayedTime := none
    , productCode := none })]

/-- Watched-folder fixture list. -/
def foldersFix : List WatchedFolder :=
  [{ path := "/a", name := "a", videoCount := 1 }
  , { path := "/b", name := "b", videoCount := 2 }]

/-- Watched-folder fixture: a replacement entry for `/a`. -/
def folderFixA : WatchedFolder := { path := "/a", name := "A", videoCount := 5 }

/-! # Theorems -/

/-! ## Metadata store lemmas -/

theorem lookupMeta_setMeta_self (tbl : MetadataTable) (p : String)
    (m : VideoMetadata) : lookupMeta (setMeta tbl p m) p = some m := by
  induction tbl with
  | nil => simp [setMeta, lookupMeta]
  | cons kv rest ih =>
      obtain ⟨k, v⟩ := kv
      by_cases h : k = p
      · simp [setMeta, lookupMeta, h]
      · simp [setMeta, lookupMeta, h, ih]

theorem lookupMeta_setMeta_ne (tbl : MetadataTable) (p : String)
    (m : VideoMetadata) (q : String) (hq : q ≠ p) :
    lookupMeta (setMeta tbl p m) q = lookupMeta tbl q := by
  induction tbl with
  | nil => simp [setMeta, lookupMeta, Ne.symm hq]
  | cons kv rest ih =>
      obtain ⟨k, v⟩ := kv
      by_cases h : k = p
      · subst h
        have hkq : k ≠ q := fun h' => hq h'.symm
        simp [setMeta, lookupMeta, hkq]
      · by_cases h' : k = q
        · simp [setMeta, lookupMeta, h, h', hq]
        · simp [setMeta, lookupMeta, h, h', ih]

theorem lookupMeta_deleteMeta_self (tbl : MetadataTable) (p : String) :
    lookupMeta (deleteMeta tbl p) p = none := by
  induction tbl with
  | nil => simp [deleteMeta, lookupMeta]
  | cons kv rest ih =>
      obtain ⟨k, v⟩ := kv
      by_cases h : k = p
      · simpa [deleteMeta, lookupMeta, h] using ih
      · simpa [deleteMeta, lookupMeta, h] using ih

theorem lookupMeta_deleteMeta_ne (tbl : MetadataTable) (p : String)
    (q : String) (hq : q ≠ p) :
    lookupMeta (deleteMeta tbl p) q = lookupMeta tbl q := by
  induction tbl with
  | nil => simp [deleteMeta, lookupMeta]
  | cons kv rest ih =>
      obtain ⟨k, v⟩ := kv
      by_cases h : k = p
      · subst h
        have hkq : k ≠ q := fun h' => hq h'.symm
        simpa [deleteMeta, lookupMeta, hkq, List.filter_cons] using ih
      · by_cases h' : k = q
        · simp [deleteMeta, lookupMeta, h, h', hq, List.filter_cons]
        · simpa [deleteMeta, lookupMeta, h, h', List.filter_cons] using ih

/-! ## C9: toggle-favorite frame conditions -/

/-- C9: the toggle-favorite handler flips exactly the `isFavorite` field of
the given path's metadata and returns the new value; the same path's
`tags`, `lastPlayedTime` and `productCode`, and every other path's
metadata blob, are unchanged. -/
theorem toggleFavorite_frame (tbl : MetadataTable) (p : String) :
    (toggleFavorite tbl p).2 = !(getVideoMetadata tbl p).isFavorite ∧
    getVideoMetadata (toggleFavorite tbl p).1 p =
      { getVideoMetadata tbl p with
        isFavorite := !(getVideoMetadata tbl p).isFavorite } ∧
    ∀ q, q ≠ p →
      getVideoMetadata (toggleFavorite tbl p).1 q = getVideoMetadata tbl q := by
  refine ⟨rfl, ?_, ?_⟩
  · show getVideoMetadata (saveVideoMetadata tbl p _) p = _
    unfold getVideoMetadata saveVideoMetadata
    rw [lookupMeta_setMeta_self]
    rfl
  · intro q hq
    show getVideoMetadata (saveVideoMetadata tbl p _) q = _
    unfold getVideoMetadata saveVideoMetadata
    rw [lookupMeta_setMeta_ne _ _ _ _ hq]

/-- Witness for C9 at a concrete table: toggling `/a/one.mp4` leaves
`/a/two.mp4` untouched and flips only the favorite flag. -/
theorem toggleFavorite_frame_witness :
    ("/a/two.mp4" : String) ≠ "/a/one.mp4" ∧
    getVideoMetadata (toggleFavorite tblTog "/a/one.mp4").1 "/a/two.mp4"
      = getVideoMetadata tblTog "/a/two.mp4" :=
  ⟨by decide, (toggleFavorite_frame tblTog "/a/one.mp4").2.2 "/a/two.mp4" (by decide)⟩

/-! ## C10: watched-folder path uniqueness -/

theorem findIdx_shift (p : WatchedFolder → Bool) (l : List WatchedFolder) :
    ∀ i : Nat, l.findIdx? p (i + 1) = (l.findIdx? p i).map (· + 1) := by
  induction l with
  | nil => intro i; rfl
  | cons a l ih =>
      intro i
      simp only [List.findIdx?]
      by_cases h : p a
      · simp [h]
      · simp only [h, if_false, Bool.false_eq_true]
        exact ih (i + 1)

theorem addWatchedFolder_cons (f : WatchedFolder) (rest : List WatchedFolder)
    (folder : WatchedFolder) :
    addWatchedFolder (f :: rest) folder =
      if f.path = folder.path then folder :: rest
      else f :: addWatchedFolder rest folder := by
  unfold addWatchedFolder
  simp only [List.findIdx?]
  by_cases h : f.path = folder.path
  · simp [h]
  · simp only [h, decide_eq_true_eq, if_neg, decide_False]
    rw [show (0 + 1) = (0 : Nat) + 1 from rfl, findIdx_shift]
    cases hidx : rest.findIdx? (fun g => g.path = folder.path) 0 with
    | none => simp
    | some i => simp

theorem filter_path_eq_nil (l : List WatchedFolder) (x : String)
    (h : x ∉ l.map (fun f => f.path)) :
    l.filter (fun f => f.path = x) = [] := by
  induction l with
  | nil => rfl
  | cons f rest ih =>
      simp only [List.map_cons, List.mem_cons, not_or] at h
      have hf : ¬ f.path = x := fun h' => h.1 h'.symm
      simp [List.filter_cons, hf, ih h.2]

theorem addWatchedFolder_paths (folders : List WatchedFolder)
    (folder : WatchedFolder) :
    (addWatchedFolder folders folder).map (fun f => f.path) =
      if folder.path ∈ folders.map (fun f => f.path)
      then folders.map (fun f => f.path)
      else folders.map (fun f => f.path) ++ [folder.path] := by
  induction folders with
  | nil => simp [addWatchedFolder]
  | cons f rest ih =>
      rw [addWatchedFolder_cons]
      by_cases h : f.path = folder.path
      · simp [h]
      · have h' : folder.path ≠ f.path := fun h' => h h'.symm
        by_cases hm : folder.path ∈ rest.map (fun f => f.path)
        · simp [h, hm, h', ih]
        · simp [h, hm, h', ih]

theorem addWF_filter_self (folders : List WatchedFolder) (folder : WatchedFolder)
    (h : (folders.map (fun f => f.path)).Nodup) :
    (addWatchedFolder folders folder).filter
        (fun f => f.path = folder.path) = [folder] := by
  induction folders with
  | nil => simp [addWatchedFolder]
  | cons f rest ih =>
      rw [addWatchedFolder_cons]
      simp only [List.map_cons, List.nodup_cons] at h
      by_cases hf : f.path = folder.path
      · have : rest.filter (fun g => g.path = folder.path) = [] :=
          filter_path_eq_nil rest folder.path (hf ▸ h.1)
        simp [hf, List.filter_cons, this]
      · simp [hf, List.filter_cons, ih h.2]

theorem addWF_filter_ne (folders : List WatchedFolder) (folder : WatchedFolder)
    (q : String) (hq : q ≠ folder.path) :
    (addWatchedFolder folders folder).filter (fun f => f.path = q)
      = folders.filter (fun f => f.path = q) := by
  have hnq : ¬ folder.path = q := fun h' => hq h'.symm
  induction folders with
  | nil => simp [addWatchedFolder, hnq]
  | cons f rest ih =>
      rw [addWatchedFolder_cons]
      by_cases hf : f.path = folder.path
      · have hfr : ¬ f.path = q := fun h' => hnq (hf ▸ h')
        simp [hf, List.filter_cons, hnq, hfr, hq]
      · by_cases hfq : f.path = q
        · simp [hf, List.filter_cons, hfq, ih, hq]
        · simp [hf, List.filter_cons, hfq, ih, hq]

theorem removeWF_filter_self (folders : List WatchedFolder) (folderPath : String) :
    (removeWatchedFolder folders folderPath).filter
        (fun f => f.path = folderPath) = [] := by
  unfold removeWatchedFolder
  rw [List.filter_filter]
  apply List.filter_eq_nil_iff.mpr
  intro a _
  simp

theorem removeWF_filter_ne (folders : List WatchedFolder) (folderPath : String)
    (q : String) (hq : q ≠ folderPath) :
    (removeWatchedFolder folders folderPath).filter (fun f => f.path = q)
      = folders.filter (fun f => f.path = q) := by
  unfold removeWatchedFolder
  rw [List.filter_filter]
  apply List.filter_congr
  intro a _
  by_cases ha : a.path = q
  · simp [ha, hq]
  · simp [ha]

theorem addWF_nodup (folders : List WatchedFolder) (folder : WatchedFolder)
    (h : (folders.map (fun f => f.path)).Nodup) :
    ((addWatchedFolder folders folder).map (fun f => f.path)).Nodup := by
  rw [addWatchedFolder_paths]
  by_cases hm : folder.path ∈ folders.map (fun f => f.path)
  · simpa [hm] using h
  · simp only [hm, if_false]
    rw [List.nodup_append]
    refine ⟨h, List.nodup_singleton _, ?_⟩
    intro a ha hb
    simp only [List.mem_singleton] at hb
    exact hm (hb ▸ ha)

theorem removeWF_nodup (folders : List WatchedFolder) (folderPath : String)
    (h : (folders.map (fun f => f.path)).Nodup) :
    ((removeWatchedFolder folders folderPath).map (fun f => f.path)).Nodup := by
  unfold removeWatchedFolder
  exact List.Nodup.sublist
    ((List.filter_sublist folders).map (fun f => f.path)) h

/-- C10: the watched-folders list keeps path-uniqueness as an invariant:
`addWatchedFolder` replaces in place the entry with the same path and
appends only when none exists, `removeWatchedFolder` removes every entry
with the given path, and both preserve nodup paths. -/
theorem watchedFolders_unique (folders : List WatchedFolder)
    (folder : WatchedFolder) (folderPath : String)
    (h : (folders.map (fun f => f.path)).Nodup) :
    ((addWatchedFolder folders folder).map (fun f => f.path)).Nodup ∧
    ((removeWatchedFolder folders folderPath).map (fun f => f.path)).Nodup ∧
    (addWatchedFolder folders folder).filter
        (fun f => f.path = folder.path) = [folder] ∧
    (∀ q, q ≠ folder.path →
      (addWatchedFolder folders folder).filter (fun f => f.path = q)
        = folders.filter (fun f => f.path = q)) ∧
    (addWatchedFolder folders folder).map (fun f => f.path) =
      (if folder.path ∈ folders.map (fun f => f.path)
       then folders.map (fun f => f.path)
       else folders.map (fun f => f.path) ++ [folder.path]) ∧
    (removeWatchedFolder folders folderPath).filter
        (fun f => f.path = folderPath) = [] ∧
    (∀ q, q ≠ folderPath →
      (removeWatchedFolder folders folderPath).filter (fun f => f.path = q)
        = folders.filter (fun f => f.path = q)) :=
  ⟨addWF_nodup folders folder h, removeWF_nodup folders folderPath h,
   addWF_filter_self folders folder h,
   fun q hq => addWF_filter_ne folders folder q hq,
   addWatchedFolder_paths folders folder,
   removeWF_filter_self folders folderPath,
   fun q hq => removeWF_filter_ne folders folderPath q hq⟩

/-- Witness for C10 at a concrete list: adding a replacement entry for
`/a` keeps one entry per path and stores the new entry. -/
theorem watchedFolders_unique_witness :
    ((foldersFix.map (fun f => f.path)).Nodup) ∧
    (addWatchedFolder foldersFix folderFixA).filter
        (fun f => f.path = folderFixA.path) = [folderFixA] :=
  ⟨by decide, (watchedFolders_unique foldersFix folderFixA "/b" (by decide)).2.2.1⟩

/-! ## C5: thumbnail cache (schema-suffix mismatch) -/

/-- C5 (code bug): the scan's cached-thumbnail logic probes
`{cacheKey}_v3.jpg` but `generateThumbnail` writes `{cacheKey}_v2.jpg`, so
with an empty artifact directory two successive calls for the same
`(path, cacheKey)` both invoke the extractor — the second call is not a
pure existence check, contradicting the cache contract.  The `_v3` probe
path is never created by any call. -/
theorem thumbStep_reextracts_on_second_call :
    (thumbTwice true true [] "/videos/a.mp4" "cachekey" "/thumbs").2 = 2 ∧
    (thumbTwice true true [] "/videos/a.mp4" "cachekey" "/thumbs").1
      = ["/thumbs/cachekey_v2.jpg"] ∧
    ("/thumbs/cachekey_v3.jpg" ∈
      (thumbTwice true true [] "/videos/a.mp4" "cachekey" "/thumbs").1) = False := by
  refine ⟨rfl, rfl, ?_⟩
  simp [thumbTwice, thumbStep, generateThumbnail, thumbnailExists, writeFile,
    joinPath]

/-! ## C8: duration prober contract -/

/-- C8 (corrected): `getVideoDuration` floors the container-reported
duration, but returns `null` not only on prober failure: a reported
duration that is missing or exactly `0` also yields `null` (JS truthiness
of `duration ? Math.floor(duration) : null`).  The duration field of a
scanned record is a function of the prober outcome alone, and the
thumbnail field of the thumbnail step alone, so the two failure domains
are independent. -/
theorem getVideoDuration_contract :
    (∀ r : Except String FfprobeFormat,
      (getVideoDuration r = none ↔
        (∃ e, r = Except.error e) ∨ r = Except.ok ⟨none⟩ ∨
          r = Except.ok ⟨some 0⟩)) ∧
    (∀ d : ℚ, d ≠ 0 →
      getVideoDuration (Except.ok ⟨some d⟩) = some ⌊d⌋) ∧
    (∀ env tbl fs folderPath thumbnailsDir file st,
      (buildRecord env tbl fs folderPath thumbnailsDir file st).1.duration
        = getVideoDuration (env.probeResult (joinPath folderPath file))) ∧
    (∀ env tbl fs folderPath thumbnailsDir file st,
      (buildRecord env tbl fs folderPath thumbnailsDir file st).1.thumbnailPath
        = (thumbStep (env.extractorOk (joinPath folderPath file)) fs
            (joinPath folderPath file)
            (env.hashPath (joinPath folderPath file)) thumbnailsDir).2.1) := by
  refine ⟨?_, ?_, ?_, ?_⟩
  · intro r
    match r with
    | Except.error e => simp [getVideoDuration]
    | Except.ok fmt =>
        match fmt with
        | ⟨none⟩ => simp [getVideoDuration]
        | ⟨some d⟩ =>
            by_cases hd : d = 0
            · subst hd; simp [getVideoDuration]
            · simp [getVideoDuration, hd, FfprobeFormat.mk.injEq]
  · intro d hd
    simp [getVideoDuration, hd]
  · intro env tbl fs folderPath thumbnailsDir file st
    rfl
  · intro env tbl fs folderPath thumbnailsDir file st
    rfl

/-- Witness for C8: a successful probe reporting 7/2 seconds floors to 3. -/
theorem getVideoDuration_contract_witness :
    ((7 : ℚ) / 2 ≠ 0) ∧
    getVideoDuration (Except.ok ⟨some ((7 : ℚ) / 2)⟩) = some 3 :=
  ⟨by norm_num, by
    have h := getVideoDuration_contract.2.1 ((7 : ℚ) / 2) (by norm_num)
    rw [h]; norm_num⟩

/-- Counterexample for C8 as stated: the probe succeeds with a reported
duration of `0`, yet the result is `null` — so "null exactly when the tool
fails" is false (the claimed value would be `floor 0 = 0`). -/
theorem getVideoDuration_zero_counterexample :
    getVideoDuration (Except.ok ⟨some (0 : ℚ)⟩) = none ∧
    (Except.ok (⟨some (0 : ℚ)⟩ : FfprobeFormat) :
      Except String FfprobeFormat).isOk = true ∧
    Int.floor (0 : ℚ) = 0 := by
  refine ⟨rfl, rfl, by norm_num⟩

/-! ## C7: metadata migration on single-file rename -/

/-- C7 (corrected): after a successful rename to a distinct free target,
the metadata moves to the new key and the old key is deleted **only when**
`isFavorite` is set or `tags` is nonempty; otherwise — including metadata
that is non-default only through `lastPlayedTime` or `productCode` — the
store is untouched (in particular, default metadata is never copied). -/
theorem renameVideo_migration (fs : List String) (tbl : MetadataTable)
    (oldPath newName : String)
    (hOld : fs.contains oldPath = true)
    (hFree : fs.contains (renameTarget oldPath newName) = false) :
    (renameVideo fs tbl oldPath newName).2.2.success = true ∧
    (renameVideo fs tbl oldPath newName).2.2.newPath
      = some (renameTarget oldPath newName) ∧
    (((getVideoMetadata tbl oldPath).isFavorite ∨
        (getVideoMetadata tbl oldPath).tags ≠ []) →
      getVideoMetadata (renameVideo fs tbl oldPath newName).2.1
          (renameTarget oldPath newName) = getVideoMetadata tbl oldPath ∧
      getVideoMetadata (renameVideo fs tbl oldPath newName).2.1 oldPath
          = defaultMetadata) ∧
    (¬ ((getVideoMetadata tbl oldPath).isFavorite ∨
        (getVideoMetadata tbl oldPath).tags ≠ []) →
      (renameVideo fs tbl oldPath newName).2.1 = tbl) := by
  have hne : renameTarget oldPath newName ≠ oldPath := by
    intro e
    rw [e, hOld] at hFree
    exact Bool.true_eq_false.mp hFree
  have hred : renameVideo fs tbl oldPath newName
      = (fsRename fs oldPath (renameTarget oldPath newName),
         (if (getVideoMetadata tbl oldPath).isFavorite ∨
              (getVideoMetadata tbl oldPath).tags ≠ [] then
            deleteMeta
              (saveVideoMetadata tbl (renameTarget oldPath newName)
                (getVideoMetadata tbl oldPath)) oldPath
          else tbl),
         { success := true, newPath := some (renameTarget oldPath newName)
         , error := none }) := by
    unfold renameVideo
    rw [if_neg, if_neg]
    · simpa using hOld
    · intro hmem
      exact absurd hmem.1 (by simpa using hFree)
  refine ⟨by rw [hred], by rw [hred], ?_, ?_⟩
  · intro hmig
    rw [hred]
    simp only [if_pos hmig]
    constructor
    · unfold getVideoMetadata saveVideoMetadata
      rw [lookupMeta_deleteMeta_ne _ _ _ hne, lookupMeta_setMeta_self]
      rfl
    · unfold getVideoMetadata
      rw [lookupMeta_deleteMeta_self]
      rfl
  · intro hmig
    rw [hred]
    simp only [if_neg hmig]

/-- Witness for C7 at a favorited file: the metadata follows the rename
and the old key returns the default afterwards. -/
theorem renameVideo_migration_witness :
    fsRen.contains "/v/a.mp4" = true ∧
    fsRen.contains (renameTarget "/v/a.mp4" "b") = false ∧
    (getVideoMetadata (renameVideo fsRen tblRenFav "/v/a.mp4" "b").2.1
        (renameTarget "/v/a.mp4" "b") = getVideoMetadata tblRenFav "/v/a.mp4" ∧
      getVideoMetadata (renameVideo fsRen tblRenFav "/v/a.mp4" "b").2.1
        "/v/a.mp4" = defaultMetadata) :=
  ⟨by decide, by decide,
   (renameVideo_migration fsRen tblRenFav "/v/a.mp4" "b" (by decide)
      (by decide)).2.2.1 (by decide)⟩

/-- Counterexample for C7 as stated: a successful rename of a path whose
metadata is non-default only through `lastPlayedTime` copies nothing to
the new path and leaves the old key in place. -/
theorem renameVideo_lastPlayed_counterexample :
    (renameVideo fsRen tblRen "/v/a.mp4" "b").2.2.success = true ∧
    getVideoMetadata tblRen "/v/a.mp4" ≠ defaultMetadata ∧
    getVideoMetadata (renameVideo fsRen tblRen "/v/a.mp4" "b").2.1 "/v/b.mp4"
      = defaultMetadata ∧
    getVideoMetadata (renameVideo fsRen tblRen "/v/a.mp4" "b").2.1 "/v/a.mp4"
      ≠ defaultMetadata := by decide

/-! ## C2: consumer-boundary deduplication -/

theorem flush_videos (s : ConsumerState) :
    (flushPendingVideos s).videos
      = s.videos ++ s.pending.filter
          (fun v => ¬ (s.videos.map videoKey).contains (videoKey v)) := by
  unfold flushPendingVideos
  by_cases h : s.pending = []
  · simp [h]
  · simp [h]

theorem flush_idem (s : ConsumerState) :
    flushPendingVideos (flushPendingVideos s) = flushPendingVideos s := by
  unfold flushPendingVideos
  by_cases h : s.pending = []
  · simp [h]
  · simp [h]

theorem dedupAux_keys (l : List VideoFile) : ∀ (seen : List String) (k : String),
    k ∈ (dedupKeepFirstAux seen l).map videoKey ↔
      (k ∈ l.map videoKey ∧ k ∉ seen) := by
  induction l with
  | nil => intro seen k; simp [dedupKeepFirstAux]
  | cons v rest ih =>
      intro seen k
      by_cases hv : videoKey v ∈ seen
      · rw [show dedupKeepFirstAux seen (v :: rest)
            = dedupKeepFirstAux seen rest by simp [dedupKeepFirstAux, hv]]
        rw [ih]
        simp only [List.map_cons, List.mem_cons]
        constructor
        · rintro ⟨hk, hs⟩
          exact ⟨Or.inr hk, hs⟩
        · rintro ⟨hk | hk, hs⟩
          · exact absurd (hk ▸ hv) hs
          · exact ⟨hk, hs⟩
      · rw [show dedupKeepFirstAux seen (v :: rest)
            = v :: dedupKeepFirstAux (videoKey v :: seen) rest by
            simp [dedupKeepFirstAux, hv]]
        simp only [List.map_cons, List.mem_cons, ih, List.mem_cons, not_or]
        constructor
        · rintro (h | ⟨hk, hs⟩)
          · exact ⟨Or.inl h, fun hc => hv (h ▸ hc)⟩
          · exact ⟨Or.inr hk, hs.2⟩
        · rintro ⟨h | h, hs⟩
          · exact Or.inl h
          · by_cases hkv : k = videoKey v
            · exact Or.inl hkv
            · exact Or.inr ⟨h, hkv, hs⟩

theorem dedupAux_keys_nodup (l : List VideoFile) : ∀ (seen : List String),
    ((dedupKeepFirstAux seen l).map videoKey).Nodup := by
  induction l with
  | nil => intro seen; simp [dedupKeepFirstAux]
  | cons v rest ih =>
      intro seen
      by_cases hv : videoKey v ∈ seen
      · rw [show dedupKeepFirstAux seen (v :: rest)
            = dedupKeepFirstAux seen rest by simp [dedupKeepFirstAux, hv]]
        exact ih seen
      · rw [show dedupKeepFirstAux seen (v :: rest)
            = v :: dedupKeepFirstAux (videoKey v :: seen) rest by
            simp [dedupKeepFirstAux, hv]]
        simp only [List.map_cons, List.nodup_cons]
        refine ⟨?_, ih _⟩
        intro hmem
        have := (dedupAux_keys rest _ _).mp hmem
        simp at this

theorem dedupAux_eq_self (l : List VideoFile) : ∀ (seen : List String),
    (∀ x ∈ l, videoKey x ∉ seen) →
    (l.map videoKey).Nodup →
    dedupKeepFirstAux seen l = l := by
  induction l with
  | nil => intro seen _ _; rfl
  | cons v rest ih =>
      intro seen hseen hnd
      have hv : videoKey v ∉ seen := hseen v (List.mem_cons_self _ _)
      rw [show dedupKeepFirstAux seen (v :: rest)
          = v :: dedupKeepFirstAux (videoKey v :: seen) rest by
          simp [dedupKeepFirstAux, hv]]
      simp only [List.map_cons, List.nodup_cons] at hnd
      congr 1
      apply ih _ _ hnd.2
      intro x hx
      simp only [List.mem_cons, not_or]
      refine ⟨?_, hseen x (List.mem_cons_of_mem _ hx)⟩
      intro h
      exact hnd.1 (h ▸ List.mem_map_of_mem videoKey hx)

theorem dedupAux_drop_dup (v : VideoFile) (X : List VideoFile) :
    ∀ (A : List VideoFile) (seen : List String),
    (videoKey v ∈ seen ∨ videoKey v ∈ A.map videoKey) →
    dedupKeepFirstAux seen (A ++ v :: X) = dedupKeepFirstAux seen (A ++ X) := by
  intro A
  induction A with
  | nil =>
      intro seen h
      rcases h with h | h
      · simp only [List.nil_append]
        simp [dedupKeepFirstAux, h]
      · simp at h
  | cons a A ih =>
      intro seen h
      simp only [List.cons_append]
      by_cases ha : videoKey a ∈ seen
      · rw [show dedupKeepFirstAux seen (a :: (A ++ v :: X))
            = dedupKeepFirstAux seen (A ++ v :: X) by simp [dedupKeepFirstAux, ha],
          show dedupKeepFirstAux seen (a :: (A ++ X))
            = dedupKeepFirstAux seen (A ++ X) by simp [dedupKeepFirstAux, ha]]
        apply ih
        rcases h with h | h
        · exact Or.inl h
        · simp only [List.map_cons, List.mem_cons] at h
          rcases h with h' | h'
          · exact Or.inl (h' ▸ ha)
          · exact Or.inr h'
      · rw [show dedupKeepFirstAux seen (a :: (A ++ v :: X))
            = a :: dedupKeepFirstAux (videoKey a :: seen) (A ++ v :: X) by
            simp [dedupKeepFirstAux, ha],
          show dedupKeepFirstAux seen (a :: (A ++ X))
            = a :: dedupKeepFirstAux (videoKey a :: seen) (A ++ X) by
            simp [dedupKeepFirstAux, ha]]
        congr 1
        apply ih
        rcases h with h | h
        · exact Or.inl (List.mem_cons_of_mem _ h)
        · simp only [List.map_cons, List.mem_cons] at h
          rcases h with h' | h'
          · exact Or.inl (h' ▸ List.mem_cons_self _ _)
          · exact Or.inr h'

theorem dedupAux_append_new (v : VideoFile) :
    ∀ (A : List VideoFile) (seen : List String),
    videoKey v ∉ seen →
    videoKey v ∉ A.map videoKey →
    dedupKeepFirstAux seen (A ++ [v]) = dedupKeepFirstAux seen A ++ [v] := by
  intro A
  induction A with
  | nil =>
      intro seen hs _
      simp [dedupKeepFirstAux, hs]
  | cons a A ih =>
      intro seen hs hA
      simp only [List.cons_append]
      simp only [List.map_cons, List.mem_cons, not_or] at hA
      by_cases ha : videoKey a ∈ seen
      · rw [show dedupKeepFirstAux seen (a :: (A ++ [v]))
            = dedupKeepFirstAux seen (A ++ [v]) by simp [dedupKeepFirstAux, ha],
          show dedupKeepFirstAux seen (a :: A)
            = dedupKeepFirstAux seen A by simp [dedupKeepFirstAux, ha]]
        exact ih seen hs hA.2
      · rw [show dedupKeepFirstAux seen (a :: (A ++ [v]))
            = a :: dedupKeepFirstAux (videoKey a :: seen) (A ++ [v]) by
            simp [dedupKeepFirstAux, ha],
          show dedupKeepFirstAux seen (a :: A)
            = a :: dedupKeepFirstAux (videoKey a :: seen) A by
            simp [dedupKeepFirstAux, ha]]
        simp only [List.cons_append, List.cons.injEq, true_and]
        apply ih _ _ hA.2
        simp only [List.mem_cons, not_or]
        exact ⟨fun h => hA.1 h, hs⟩

theorem pending_key_in_flush (s : ConsumerState) (k : String)
    (hk : k ∈ s.pending.map videoKey) :
    k ∈ (flushPendingVideos s).videos.map videoKey := by
  rw [flush_videos]
  obtain ⟨x, hx, hkx⟩ := List.mem_map.mp hk
  by_cases hv : k ∈ s.videos.map videoKey
  · simp only [List.map_append, List.mem_append]
    exact Or.inl hv
  · simp only [List.map_append, List.mem_append]
    right
    apply List.mem_map.mpr
    refine ⟨x, List.mem_filter.mpr ⟨hx, ?_⟩, hkx⟩
    simp [hkx, hv]

theorem videos_key_in_flush (s : ConsumerState) (k : String)
    (hv : k ∈ s.videos.map videoKey) :
    k ∈ (flushPendingVideos s).videos.map videoKey := by
  rw [flush_videos]
  simp only [List.map_append, List.mem_append]
  exact Or.inl hv

theorem flush_keys_nodup (s : ConsumerState)
    (h1 : (s.videos.map videoKey).Nodup)
    (h2 : (s.pending.map videoKey).Nodup) :
    ((flushPendingVideos s).videos.map videoKey).Nodup := by
  rw [flush_videos, List.map_append, List.nodup_append]
  refine ⟨h1, ?_, ?_⟩
  · exact List.Nodup.sublist (List.Sublist.map _ (List.filter_sublist _)) h2
  · intro k hk1 hk2
    obtain ⟨x, hx, hkx⟩ := List.mem_map.mp hk2
    have hpred := (List.mem_filter.mp hx).2
    simp only [decide_not, Bool.not_eq_true', decide_eq_false_iff_not] at hpred
    exact hpred (by simpa [hkx] using hk1)

theorem runEvents_spec : ∀ (es : List CEvent) (s : ConsumerState),
    (s.videos.map videoKey).Nodup →
    (s.pending.map videoKey).Nodup →
    s.pendingPaths = s.pending.map videoKey →
    (flushPendingVideos (runEvents s es)).videos
      = dedupKeepFirstAux [] ((flushPendingVideos s).videos ++ emittedOf es) := by
  intro es
  induction es with
  | nil =>
      intro s h1 h2 h3
      simp only [runEvents, emittedOf, List.append_nil]
      exact (dedupAux_eq_self _ [] (by simp) (flush_keys_nodup s h1 h2)).symm
  | cons e rest ih =>
      intro s h1 h2 h3
      match e with
      | CEvent.flush =>
          show (flushPendingVideos (runEvents (flushPendingVideos s) rest)).videos = _
          have hinv2 : ((flushPendingVideos s).pending.map videoKey).Nodup := by
            unfold flushPendingVideos
            by_cases h : s.pending = []
            · simpa [h] using h2
            · simp [h]
          have hinv3 : (flushPendingVideos s).pendingPaths
              = (flushPendingVideos s).pending.map videoKey := by
            unfold flushPendingVideos
            by_cases h : s.pending = []
            · simpa [h] using h3
            · simp [h]
          rw [ih (flushPendingVideos s) (flush_keys_nodup s h1 h2) hinv2 hinv3]
          rw [flush_idem]
          rfl
      | CEvent.ready v =>
          show (flushPendingVideos (runEvents (onVideoFileReady s v) rest)).videos = _
          by_cases hA : (s.pendingPaths.contains (videoKey v)) = true
          · have hs' : onVideoFileReady s v = s := by
              unfold onVideoFileReady
              rw [if_pos hA]
            rw [hs', ih s h1 h2 h3]
            have hkey : videoKey v ∈ (flushPendingVideos s).videos.map videoKey := by
              apply pending_key_in_flush
              rw [← h3]
              simpa using hA
            exact (dedupAux_drop_dup v (emittedOf rest)
              (flushPendingVideos s).videos [] (Or.inr hkey)).symm
          · have hvp : videoKey v ∉ s.pending.map videoKey := by
              rw [← h3]
              simpa using hA
            have hs' : onVideoFileReady s v
                = { s with pending := s.pending ++ [v]
                         , pendingPaths := s.pendingPaths ++ [videoKey v] } := by
              unfold onVideoFileReady
              rw [if_neg hA]
            have hinv2 : (((s.pending ++ [v]).map videoKey)).Nodup := by
              rw [List.map_append, List.nodup_append]
              refine ⟨h2, by simp, ?_⟩
              intro k hk1 hk2
              simp only [List.map_cons, List.map_nil, List.mem_singleton] at hk2
              exact hvp (hk2 ▸ hk1)
            have hinv3 : s.pendingPaths ++ [videoKey v]
                = (s.pending ++ [v]).map videoKey := by
              rw [List.map_append, h3]
              rfl
            rw [hs', ih { s with pending := s.pending ++ [v]
                                , pendingPaths := s.pendingPaths ++ [videoKey v] }
                  h1 hinv2 hinv3]
            by_cases hv : (s.videos.map videoKey).contains (videoKey v) = true
            · have hflush' : (flushPendingVideos
                  { s with pending := s.pending ++ [v]
                         , pendingPaths := s.pendingPaths ++ [videoKey v] }).videos
                  = (flushPendingVideos s).videos := by
                rw [flush_videos, flush_videos]
                have hvm : videoKey v ∈ s.videos.map videoKey := by simpa using hv
                simp only [List.filter_append, List.filter_cons]
                obtain ⟨x, hx, he⟩ := List.mem_map.mp hvm
                simp [he ▸ List.mem_map_of_mem videoKey hx]
              rw [hflush']
              have hkey : videoKey v ∈ (flushPendingVideos s).videos.map videoKey :=
                videos_key_in_flush s _ (by simpa using hv)
              exact (dedupAux_drop_dup v (emittedOf rest)
                (flushPendingVideos s).videos [] (Or.inr hkey)).symm
            · have hvm : videoKey v ∉ s.videos.map videoKey := by simpa using hv
              have hflush' : (flushPendingVideos
                  { s with pending := s.pending ++ [v]
                         , pendingPaths := s.pendingPaths ++ [videoKey v] }).videos
                  = (flushPendingVideos s).videos ++ [v] := by
                rw [flush_videos, flush_videos]
                simp only [List.filter_append, List.filter_cons]
                have hall : ∀ x ∈ s.videos, ¬ videoKey x = videoKey v := by
                  intro x hx he
                  exact hvm (he ▸ List.mem_map_of_mem videoKey hx)
                simp [hall]
                exact hall
              rw [hflush', List.append_assoc]
              rfl

/-- C2 (corrected): at the consumer boundary an incoming record whose
lowercased path was already seen is discarded — both while pending and at
flush time — so after any event sequence and a final flush the consumer
holds exactly one record per case-insensitive path, and that record is the
**earliest** emitted one (the rendered list is the emission sequence
deduplicated keeping first occurrences), not the most recent. -/
theorem consumer_dedup_first_wins (es : List CEvent) :
    (flushPendingVideos (runEvents initConsumer es)).videos
      = dedupKeepFirst (emittedOf es) ∧
    ((flushPendingVideos (runEvents initConsumer es)).videos.map videoKey).Nodup := by
  constructor
  · rw [runEvents_spec es initConsumer (by simp [initConsumer])
      (by simp [initConsumer]) rfl]
    rfl
  · rw [runEvents_spec es initConsumer (by simp [initConsumer])
      (by simp [initConsumer]) rfl]
    exact dedupAux_keys_nodup _ _

/-- Counterexample for C2 as stated: two records for the same
case-insensitive path; the consumer retains the first, not the most
recently emitted one. -/
theorem consumer_first_wins_counterexample :
    videoKey vFirst = videoKey vSecond ∧
    vFirst ≠ vSecond ∧
    (runEvents initConsumer
        [CEvent.ready vFirst, CEvent.ready vSecond, CEvent.flush]).videos
      = [vFirst] ∧
    (runEvents initConsumer
        [CEvent.ready vFirst, CEvent.ready vSecond, CEvent.flush]).videos
      ≠ [vSecond] := by decide

/-! ## C1 and C6: progressive scan emission and failure isolation -/

theorem processFiles_nil (env : ScanEnv) (tbl : MetadataTable)
    (fp td : String) (fs : List String) (ck : Nat) :
    processFiles env tbl fp td [] fs ck = ([], fs, some ck) := rfl

theorem processFiles_cons_none (env : ScanEnv) (tbl : MetadataTable)
    (fp td f : String) (rest : List String) (fs : List String) (ck : Nat)
    (hst : env.statProcess (joinPath fp f) = none) :
    processFiles env tbl fp td (f :: rest) fs ck
      = (TraceItem.processStart f ::
          (processFiles env tbl fp td rest fs ck).1,
         (processFiles env tbl fp td rest fs ck).2.1,
         (processFiles env tbl fp td rest fs ck).2.2) := by
  simp only [processFiles, hst]

theorem processFiles_cons_some (env : ScanEnv) (tbl : MetadataTable)
    (fp td f : String) (rest : List String) (fs : List String) (ck : Nat)
    (st : FileInfo)
    (hst : env.statProcess (joinPath fp f) = some st)
    (hd : env.destroyed ck = false) :
    processFiles env tbl fp td (f :: rest) fs ck
      = (TraceItem.processStart f ::
          TraceItem.emit ⟨"video-file-ready",
            [IpcValue.video (buildRecord env tbl fs fp td f st).1]⟩ ::
          (processFiles env tbl fp td rest
            (buildRecord env tbl fs fp td f st).2 (ck + 1)).1,
         (processFiles env tbl fp td rest
            (buildRecord env tbl fs fp td f st).2 (ck + 1)).2.1,
         (processFiles env tbl fp td rest
            (buildRecord env tbl fs fp td f st).2 (ck + 1)).2.2) := by
  simp only [processFiles, hst, hd]
  rfl

theorem processFiles_ok (env : ScanEnv) (tbl : MetadataTable)
    (fp td : String)
    (hAlive : ∀ i, env.destroyed i = false) :
    ∀ (cands : List String) (fs : List String) (ck : Nat),
    (∀ f ∈ cands, (env.statProcess (joinPath fp f)).isSome) →
    ∃ (records : List VideoFile) (fs' : List String),
      records.length = cands.length ∧
      (∀ i (h : i < cands.length) (h' : i < records.length),
        (records.get ⟨i, h'⟩).path = joinPath fp (cands.get ⟨i, h⟩)) ∧
      processFiles env tbl fp td cands fs ck
        = ((List.zipWith
              (fun f v => [TraceItem.processStart f,
                TraceItem.emit ⟨"video-file-ready", [IpcValue.video v]⟩])
              cands records).flatten, fs', some (ck + cands.length)) := by
  intro cands
  induction cands with
  | nil =>
      intro fs ck _
      exact ⟨[], fs, rfl, fun i h h' => absurd h (Nat.not_lt_zero i),
        by simp [processFiles_nil]⟩
  | cons f rest ih =>
      intro fs ck hstat
      obtain ⟨st, hst⟩ := Option.isSome_iff_exists.mp
        (hstat f (List.mem_cons_self f rest))
      obtain ⟨records', fs'', hlen, hpath, heq⟩ :=
        ih (buildRecord env tbl fs fp td f st).2 (ck + 1)
          (fun g hg => hstat g (List.mem_cons_of_mem _ hg))
      refine ⟨(buildRecord env tbl fs fp td f st).1 :: records', fs'', ?_, ?_, ?_⟩
      · simpa using hlen
      · intro i h h'
        match i with
        | 0 => rfl
        | Nat.succ j =>
            exact hpath j (Nat.lt_of_succ_lt_succ h) (Nat.lt_of_succ_lt_succ h')
      · rw [processFiles_cons_some env tbl fp td f rest fs ck st hst (hAlive ck),
          heq]
        simp only [List.zipWith_cons_cons, List.flatten, List.cons_append,
          Prod.mk.injEq, Option.some.injEq, List.length_cons]
        refine ⟨rfl, trivial, by omega⟩

/-- C1 (corrected): for a folder whose enumeration succeeds, whose N
candidate files all stat successfully, and whose consumer stays alive, one
scan emits exactly N `video-file-ready` events — one per candidate, in
enumeration order, each fired between its file's processing start and the
next file's — followed by exactly one `scan-folder-complete` event.  The
completion event carries the folder path only; the total candidate count N
is returned to the invoker as the handler's result `{ totalFiles: N }`,
not inside the signal. -/
theorem scanFolderProgressive_emission (env : ScanEnv) (tbl : MetadataTable)
    (fs₀ : List String) (folderPath thumbnailsDir : String)
    (files : List String)
    (hdir : env.readdirResult = some files)
    (hstat : ∀ f ∈ filterVideoFiles env folderPath files,
      (env.statProcess (joinPath folderPath f)).isSome)
    (hAlive : ∀ i, env.destroyed i = false) :
    ∃ (records : List VideoFile) (fs' : List String),
      records.length = (filterVideoFiles env folderPath files).length ∧
      (∀ i (h : i < (filterVideoFiles env folderPath files).length)
         (h' : i < records.length),
        (records.get ⟨i, h'⟩).path
          = joinPath folderPath
              ((filterVideoFiles env folderPath files).get ⟨i, h⟩)) ∧
      scanFolderProgressive env tbl fs₀ folderPath thumbnailsDir
        = { trace := (List.zipWith
              (fun f v => [TraceItem.processStart f,
                TraceItem.emit ⟨"video-file-ready", [IpcValue.video v]⟩])
              (filterVideoFiles env folderPath files) records).flatten
            ++ [TraceItem.emit ⟨"scan-folder-complete", [IpcValue.str folderPath]⟩]
          , totalFiles := (filterVideoFiles env folderPath files).length
          , fs := fs' } := by
  obtain ⟨records, fs', hlen, hpath, heq⟩ :=
    processFiles_ok env tbl folderPath thumbnailsDir hAlive
      (filterVideoFiles env folderPath files) fs₀ 0 hstat
  refine ⟨records, fs', hlen, hpath, ?_⟩
  simp only [scanFolderProgressive, hdir]
  rw [heq]
  simp [hAlive]

/-- Counterexample for C1 as stated: in a successful concrete scan of two
candidates the completion event's payload is `[folderPath]` — no emission
carries the pair (folder path, count); the count reaches the caller via
the returned `totalFiles` instead. -/
theorem scan_complete_lacks_count :
    (scanFolderProgressive envScanOk [] [] "/f" "/t").trace.getLast?
      = some (TraceItem.emit ⟨"scan-folder-complete", [IpcValue.str "/f"]⟩) ∧
    ((TraceItem.emit ⟨"scan-folder-complete",
        [IpcValue.str "/f", IpcValue.num 2]⟩)
      ∈ (scanFolderProgressive envScanOk [] [] "/f" "/t").trace) = False ∧
    (scanFolderProgressive envScanOk [] [] "/f" "/t").totalFiles = 2 := by
  refine ⟨by decide, by decide, by decide⟩

theorem scanFolderProgressive_emission_witness :
    ∃ (records : List VideoFile) (fs' : List String),
      records.length
        = (filterVideoFiles envScanOk "/f" ["a.mp4", "b.txt", "c.mkv"]).length ∧
      (∀ i (h : i < (filterVideoFiles envScanOk "/f"
              ["a.mp4", "b.txt", "c.mkv"]).length)
         (h' : i < records.length),
        (records.get ⟨i, h'⟩).path
          = joinPath "/f" ((filterVideoFiles envScanOk "/f"
              ["a.mp4", "b.txt", "c.mkv"]).get ⟨i, h⟩)) ∧
      scanFolderProgressive envScanOk [] [] "/f" "/t"
        = { trace := (List.zipWith
              (fun f v => [TraceItem.processStart f,
                TraceItem.emit ⟨"video-file-ready", [IpcValue.video v]⟩])
              (filterVideoFiles envScanOk "/f" ["a.mp4", "b.txt", "c.mkv"])
              records).flatten
            ++ [TraceItem.emit ⟨"scan-folder-complete", [IpcValue.str "/f"]⟩]
          , totalFiles := (filterVideoFiles envScanOk "/f"
              ["a.mp4", "b.txt", "c.mkv"]).length
          , fs := fs' } :=
  scanFolderProgressive_emission envScanOk [] [] "/f" "/t"
    ["a.mp4", "b.txt", "c.mkv"] rfl (by decide) (fun _ => rfl)

theorem processFiles_general (env : ScanEnv) (tbl : MetadataTable)
    (fp td : String)
    (hAlive : ∀ i, env.destroyed i = false) :
    ∀ (cands : List String) (fs : List String) (ck : Nat),
    ∃ (records : List (Option VideoFile)) (fs' : List String) (ck' : Nat),
      records.length = cands.length ∧
      (∀ i (h : i < cands.length) (h' : i < records.length),
        (records.get ⟨i, h'⟩).elim
          (env.statProcess (joinPath fp (cands.get ⟨i, h⟩)) = none)
          (fun v =>
            (env.statProcess (joinPath fp (cands.get ⟨i, h⟩))).isSome ∧
            v.path = joinPath fp (cands.get ⟨i, h⟩) ∧
            v.duration = getVideoDuration
              (env.probeResult (joinPath fp (cands.get ⟨i, h⟩))))) ∧
      processFiles env tbl fp td cands fs ck
        = ((List.zipWith
              (fun f o => TraceItem.processStart f ::
                o.elim []
                  (fun v => [TraceItem.emit
                    ⟨"video-file-ready", [IpcValue.video v]⟩]))
              cands records).flatten, fs', some ck') := by
  intro cands
  induction cands with
  | nil =>
      intro fs ck
      exact ⟨[], fs, ck, rfl, fun i h h' => absurd h (Nat.not_lt_zero i),
        by simp [processFiles_nil]⟩
  | cons f rest ih =>
      intro fs ck
      cases hst : env.statProcess (joinPath fp f) with
      | none =>
          obtain ⟨records', fs', ck', hlen, hprop, heq⟩ := ih fs ck
          refine ⟨none :: records', fs', ck', by simpa using hlen, ?_, ?_⟩
          · intro i h h'
            match i with
            | 0 => exact hst
            | Nat.succ j =>
                exact hprop j (Nat.lt_of_succ_lt_succ h) (Nat.lt_of_succ_lt_succ h')
          · rw [processFiles_cons_none env tbl fp td f rest fs ck hst, heq]
            simp only [List.zipWith_cons_cons, List.flatten, Option.elim,
              List.cons_append, List.nil_append]
      | some st =>
          obtain ⟨records', fs', ck', hlen, hprop, heq⟩ :=
            ih (buildRecord env tbl fs fp td f st).2 (ck + 1)
          refine ⟨some (buildRecord env tbl fs fp td f st).1 :: records',
            fs', ck', by simpa using hlen, ?_, ?_⟩
          · intro i h h'
            match i with
            | 0 =>
                refine ⟨by simp [hst], rfl, rfl⟩
            | Nat.succ j =>
                exact hprop j (Nat.lt_of_succ_lt_succ h) (Nat.lt_of_succ_lt_succ h')
          · rw [processFiles_cons_some env tbl fp td f rest fs ck st hst (hAlive ck),
              heq]
            simp only [List.zipWith_cons_cons, List.flatten, Option.elim,
              List.cons_append, List.nil_append]

/-- C6: per-file failures are non-fatal.  A directory-enumeration failure
aborts the folder's scan but still emits the completion signal (with
`totalFiles = 0`); otherwise every candidate whose processing-pass stat
succeeds is emitted (duration degraded to the prober's possibly-null
result), a candidate whose stat throws is skipped while processing
continues, and the completion signal still follows.  A thumbnail-extractor
failure with no cached artifact degrades the thumbnail field to null
without affecting emission. -/
theorem scan_soft_failure_isolation (env : ScanEnv) (tbl : MetadataTable)
    (fs₀ : List String) (folderPath thumbnailsDir : String) :
    (∀ (fs : List String) (p k d : String),
      thumbnailExists fs (joinPath d (k ++ "_v3.jpg")) = false →
      (thumbStep false fs p k d).2.1 = none) ∧
    (env.readdirResult = none →
      scanFolderProgressive env tbl fs₀ folderPath thumbnailsDir
        = { trace := [TraceItem.emit
              ⟨"scan-folder-complete", [IpcValue.str folderPath]⟩]
          , totalFiles := 0, fs := fs₀ }) ∧
    (∀ files, env.readdirResult = some files →
      (∀ i, env.destroyed i = false) →
      ∃ (records : List (Option VideoFile)) (fs' : List String),
        records.length = (filterVideoFiles env folderPath files).length ∧
        (∀ i (h : i < (filterVideoFiles env folderPath files).length)
           (h' : i < records.length),
          (records.get ⟨i, h'⟩).elim
            (env.statProcess (joinPath folderPath
              ((filterVideoFiles env folderPath files).get ⟨i, h⟩)) = none)
            (fun v =>
              (env.statProcess (joinPath folderPath
                ((filterVideoFiles env folderPath files).get ⟨i, h⟩))).isSome ∧
              v.path = joinPath folderPath
                ((filterVideoFiles env folderPath files).get ⟨i, h⟩) ∧
              v.duration = getVideoDuration (env.probeResult (joinPath folderPath
                ((filterVideoFiles env folderPath files).get ⟨i, h⟩))))) ∧
        scanFolderProgressive env tbl fs₀ folderPath thumbnailsDir
          = { trace := (List.zipWith
                (fun f o => TraceItem.processStart f ::
                  o.elim []
                    (fun v => [TraceItem.emit
                      ⟨"video-file-ready", [IpcValue.video v]⟩]))
                (filterVideoFiles env folderPath files) records).flatten
              ++ [TraceItem.emit
                ⟨"scan-folder-complete", [IpcValue.str folderPath]⟩]
            , totalFiles := (filterVideoFiles env folderPath files).length
            , fs := fs' }) := by
  refine ⟨?_, ?_, ?_⟩
  · intro fs p k d hmiss
    simp [thumbStep, generateThumbnail, hmiss]
  · intro hdir
    simp [scanFolderProgressive, hdir]
  · intro files hdir hAlive
    obtain ⟨records, fs', ck', hlen, hprop, heq⟩ :=
      processFiles_general env tbl folderPath thumbnailsDir hAlive
        (filterVideoFiles env folderPath files) fs₀ 0
    refine ⟨records, fs', hlen, hprop, ?_⟩
    simp only [scanFolderProgressive, hdir]
    rw [heq]
    simp [hAlive]

theorem scan_soft_failure_isolation_witness :
    ∃ (records : List (Option VideoFile)) (fs' : List String),
      records.length
        = (filterVideoFiles envScanProbeFail "/f"
            ["a.mp4", "b.mp4", "c.mp4"]).length ∧
      (∀ i (h : i < (filterVideoFiles envScanProbeFail "/f"
              ["a.mp4", "b.mp4", "c.mp4"]).length)
         (h' : i < records.length),
        (records.get ⟨i, h'⟩).elim
          (envScanProbeFail.statProcess (joinPath "/f"
            ((filterVideoFiles envScanProbeFail "/f"
              ["a.mp4", "b.mp4", "c.mp4"]).get ⟨i, h⟩)) = none)
          (fun v =>
            (envScanProbeFail.statProcess (joinPath "/f"
              ((filterVideoFiles envScanProbeFail "/f"
                ["a.mp4", "b.mp4", "c.mp4"]).get ⟨i, h⟩))).isSome ∧
            v.path = joinPath "/f"
              ((filterVideoFiles envScanProbeFail "/f"
                ["a.mp4", "b.mp4", "c.mp4"]).get ⟨i, h⟩) ∧
            v.duration = getVideoDuration (envScanProbeFail.probeResult
              (joinPath "/f" ((filterVideoFiles envScanProbeFail "/f"
                ["a.mp4", "b.mp4", "c.mp4"]).get ⟨i, h⟩))))) ∧
      scanFolderProgressive envScanProbeFail [] [] "/f" "/t"
        = { trace := (List.zipWith
              (fun f o => TraceItem.processStart f ::
                o.elim []
                  (fun v => [TraceItem.emit
                    ⟨"video-file-ready", [IpcValue.video v]⟩]))
              (filterVideoFiles envScanProbeFail "/f"
                ["a.mp4", "b.mp4", "c.mp4"]) records).flatten
            ++ [TraceItem.emit ⟨"scan-folder-complete", [IpcValue.str "/f"]⟩]
          , totalFiles := (filterVideoFiles envScanProbeFail "/f"
              ["a.mp4", "b.mp4", "c.mp4"]).length
          , fs := fs' } :=
  (scan_soft_failure_isolation envScanProbeFail [] [] "/f" "/t").2.2
    ["a.mp4", "b.mp4", "c.mp4"] rfl (fun _ => rfl)

/-! ## C3: batch rename all-or-nothing validation -/

theorem validateAux_errors_le (fs videoPaths : List String) (avail : List Nat) :
    ∀ (rem : List String) (i : Nat) (st : ValState),
    st.errors.length ≤ 5 →
    (validateAux fs videoPaths avail rem i st).errors.length ≤ 5 := by
  intro rem
  induction rem with
  | nil => intro i st h; exact h
  | cons p rest ih =>
      intro i st h
      simp only [validateAux]
      split_ifs with h1 h2 h3 h4 h5 h6 <;>
        apply ih <;> simp <;> omega

/-- C3 (corrected): when the validation pass records at least one
collision, the whole batch aborts all-or-nothing: the filesystem and the
metadata store are untouched, zero renames are reported, and the error
list is nonempty — but capped: at most five violations are recorded
explicitly, plus one generic overflow entry. -/
theorem batchRename_all_or_nothing (env : BatchEnv) (fs : List String)
    (tbl : MetadataTable) (videoPaths : List String)
    (herr : (batchValidation env fs videoPaths).errors ≠ []) :
    (batchRenameVideos env fs tbl videoPaths).1 = fs ∧
    (batchRenameVideos env fs tbl videoPaths).2.1 = tbl ∧
    (batchRenameVideos env fs tbl videoPaths).2.2.success = false ∧
    (batchRenameVideos env fs tbl videoPaths).2.2.results = [] ∧
    (batchRenameVideos env fs tbl videoPaths).2.2.errors ≠ [] ∧
    (batchRenameVideos env fs tbl videoPaths).2.2.errors.length ≤ 6 := by
  have hne : videoPaths ≠ [] := by
    intro h
    subst h
    exact herr rfl
  have hcap : (batchValidation env fs videoPaths).errors.length ≤ 5 :=
    validateAux_errors_le fs videoPaths _ videoPaths 0 initVal (by simp [initVal])
  simp only [batchRenameVideos, if_neg hne, if_pos herr]
  refine ⟨trivial, trivial, trivial, trivial, ?_, ?_⟩
  · split_ifs with h5
    · simp
    · exact herr
  · split_ifs with h5
    · simp only [List.length_append, List.length_singleton]
      omega
    · omega

/-- Witness for C3 at a concrete batch with colliding targets. -/
theorem batchRename_all_or_nothing_witness :
    (batchValidation envBatch7 fsBatch7 pathsBatch7).errors ≠ [] ∧
    ((batchRenameVideos envBatch7 fsBatch7 [] pathsBatch7).1 = fsBatch7 ∧
     (batchRenameVideos envBatch7 fsBatch7 [] pathsBatch7).2.1 = [] ∧
     (batchRenameVideos envBatch7 fsBatch7 [] pathsBatch7).2.2.success = false ∧
     (batchRenameVideos envBatch7 fsBatch7 [] pathsBatch7).2.2.results = [] ∧
     (batchRenameVideos envBatch7 fsBatch7 [] pathsBatch7).2.2.errors ≠ [] ∧
     (batchRenameVideos envBatch7 fsBatch7 [] pathsBatch7).2.2.errors.length ≤ 6) :=
  ⟨by decide, batchRename_all_or_nothing envBatch7 fsBatch7 [] pathsBatch7 (by decide)⟩

/-- Counterexample for C3 as stated: a batch with seven external
collisions; the allocated target of input 8 collides with the
out-of-batch file `/b/008.mp4`, yet its error message is absent — only
the first five violations are collected, plus a generic overflow entry. -/
theorem batchRename_error_cap_counterexample :
    allocatedTarget pathsBatch7 (batchAvail envBatch7 pathsBatch7) 7
      = "/b/008.mp4" ∧
    ("/b/008.mp4" ∈ fsBatch7) ∧
    (pathsBatch7.any (fun p => strToLower p = strToLower "/b/008.mp4")) = false ∧
    (("008.mp4 は既に存在します" : String) ∈
      (batchRenameVideos envBatch7 fsBatch7 [] pathsBatch7).2.2.errors) = False ∧
    (batchRenameVideos envBatch7 fsBatch7 [] pathsBatch7).2.2.errors.length = 6 := by
  refine ⟨by decide, by decide, by decide, by decide, by decide⟩

/-! ## C4: two-phase batch rename rollback -/

theorem mem_fsRename (fs : List String) (src dst x : String) :
    x ∈ fsRename fs src dst ↔ (x = dst ∨ (x ∈ fs ∧ x ≠ src)) := by
  simp only [fsRename, List.mem_append, List.mem_filter, List.mem_singleton]
  constructor
  · rintro (⟨hf, hp⟩ | hd)
    · simp only [decide_eq_true_eq, Bool.and_eq_true, decide_not,
        Bool.not_eq_true', decide_eq_false_iff_not] at hp
      exact Or.inr ⟨hf, hp.1⟩
    · exact Or.inl hd
  · rintro (hd | ⟨hf, hs⟩)
    · exact Or.inr hd
    · by_cases hx : x = dst
      · exact Or.inr hx
      · exact Or.inl ⟨hf, by simp [hs, hx]⟩

theorem phase1_preserves (env : BatchEnv) (L : List (String × String))
    (hnodup : (L.map (fun kv => tempPathOf env kv.1)).Nodup) :
    ∀ (rem : List (String × String)) (fsCur : List String)
      (temps : List (String × String)),
    (∀ kv' ∈ rem, kv' ∈ L) →
    (∀ kv ∈ L, tempPathOf env kv.1 ∈ fsCur →
      (tempPathOf env kv.1, kv.1) ∈ temps) →
    (∀ e ∈ temps, ∃ kv ∈ L, e = (tempPathOf env kv.1, kv.1)) →
    ((∀ kv ∈ L, tempPathOf env kv.1 ∈ (phase1 env rem fsCur temps).1 →
        (tempPathOf env kv.1, kv.1) ∈ (phase1 env rem fsCur temps).2.1) ∧
     (∀ e ∈ (phase1 env rem fsCur temps).2.1,
        ∃ kv ∈ L, e = (tempPathOf env kv.1, kv.1))) := by
  intro rem
  induction rem with
  | nil =>
      intro fsCur temps _ hGood hShape
      exact ⟨hGood, hShape⟩
  | cons hd rest ih =>
      intro fsCur temps hsub hGood hShape
      obtain ⟨o', n'⟩ := hd
      simp only [phase1]
      split_ifs with hf
      · exact ⟨hGood, hShape⟩
      · have hhd : (o', n') ∈ L := hsub _ (List.mem_cons_self _ _)
        apply ih
        · intro kv' h
          exact hsub kv' (List.mem_cons_of_mem _ h)
        · intro kv hkv hmem
          rw [mem_fsRename] at hmem
          rcases hmem with heq | ⟨hin, _⟩
          · have : kv = (o', n') :=
              List.inj_on_of_nodup_map hnodup hkv hhd heq
            subst this
            exact List.mem_append_right _ (List.mem_singleton.mpr rfl)
          · exact List.mem_append_left _ (hGood kv hkv hin)
        · intro e he
          rcases List.mem_append.mp he with h | h
          · exact hShape e h
          · rw [List.mem_singleton.mp h]
            exact ⟨(o', n'), hhd, rfl⟩

theorem phase2_preserves (env : BatchEnv) (L : List (String × String))
    (hnotTarget : ∀ kv ∈ L, ∀ kv' ∈ L, tempPathOf env kv.1 ≠ kv'.2) :
    ∀ (rem : List (String × String)) (fsCur : List String)
      (tbl : MetadataTable) (temps res : List (String × String)),
    (∀ kv' ∈ rem, kv' ∈ L) →
    (∀ kv ∈ L, tempPathOf env kv.1 ∈ fsCur →
      (tempPathOf env kv.1, kv.1) ∈ temps) →
    (∀ e ∈ temps, ∃ kv ∈ L, e = (tempPathOf env kv.1, kv.1)) →
    ((∀ kv ∈ L, tempPathOf env kv.1 ∈ (phase2 env rem fsCur tbl temps res).1 →
        (tempPathOf env kv.1, kv.1) ∈ (phase2 env rem fsCur tbl temps res).2.2.1) ∧
     (∀ e ∈ (phase2 env rem fsCur tbl temps res).2.2.1,
        ∃ kv ∈ L, e = (tempPathOf env kv.1, kv.1))) := by
  intro rem
  induction rem with
  | nil =>
      intro fsCur tbl temps res _ hGood hShape
      exact ⟨hGood, hShape⟩
  | cons hd rest ih =>
      intro fsCur tbl temps res hsub hGood hShape
      obtain ⟨o', n'⟩ := hd
      simp only [phase2]
      by_cases hf : env.renameFails.contains (tempPathOf env o', n') = true
      case pos =>
        rw [if_pos hf]
        exact ⟨hGood, hShape⟩
      case neg =>
        rw [if_neg hf]
        have hhd : (o', n') ∈ L := hsub _ (List.mem_cons_self _ _)
        apply ih
        · intro kv' h
          exact hsub kv' (List.mem_cons_of_mem _ h)
        · intro kv hkv hmem
          rw [mem_fsRename] at hmem
          rcases hmem with heq | ⟨hin, hne⟩
          · exact absurd heq (hnotTarget kv hkv (o', n') hhd)
          · refine List.mem_filter.mpr ⟨hGood kv hkv hin, ?_⟩
            simpa using hne
        · intro e he
          exact hShape e (List.mem_filter.mp he).1

theorem rollback_clears (env : BatchEnv) (L : List (String × String))
    (hnotSrc : ∀ kv ∈ L, ∀ kv' ∈ L, tempPathOf env kv.1 ≠ kv'.1) :
    ∀ (temps : List (String × String)) (fsCur : List String),
    (∀ e ∈ temps, ∃ kv ∈ L, e = (tempPathOf env kv.1, kv.1)) →
    (∀ kv ∈ L, tempPathOf env kv.1 ∈ fsCur →
      ((tempPathOf env kv.1, kv.1) ∈ temps ∨
       (tempPathOf env kv.1, kv.1) ∈ env.renameFails)) →
    ∀ kv ∈ L, tempPathOf env kv.1 ∈ rollback env temps fsCur →
      (tempPathOf env kv.1, kv.1) ∈ env.renameFails := by
  intro temps
  induction temps with
  | nil =>
      intro fsCur _ hGoodR kv hkv hmem
      rcases hGoodR kv hkv hmem with h | h
      · simp at h
      · exact h
  | cons e rest ih =>
      intro fsCur hShape hGoodR kv hkv hmem
      obtain ⟨tp, op⟩ := e
      obtain ⟨kv', hkv', heq⟩ := hShape (tp, op) (List.mem_cons_self _ _)
      have htp : tp = tempPathOf env kv'.1 := congrArg Prod.fst heq
      have hop : op = kv'.1 := congrArg Prod.snd heq
      simp only [rollback] at hmem
      refine ih _ (fun e he => hShape e (List.mem_cons_of_mem _ he)) ?_ kv hkv hmem
      intro kv₂ hkv₂ hmem₂
      by_cases h1 : fsCur.contains tp = true
      case neg =>
        rw [if_neg h1] at hmem₂
        rcases hGoodR kv₂ hkv₂ hmem₂ with h | h
        · rcases List.mem_cons.mp h with h' | h'
          · exfalso
            have : tp ∈ fsCur := by
              rw [show tp = tempPathOf env kv₂.1 from
                (congrArg Prod.fst h').symm]
              exact hmem₂
            exact h1 (by simpa using this)
          · exact Or.inl h'
        · exact Or.inr h
      case pos =>
        rw [if_pos h1] at hmem₂
        by_cases h2 : env.renameFails.contains (tp, op) = true
        case pos =>
          rw [if_pos h2] at hmem₂
          rcases hGoodR kv₂ hkv₂ hmem₂ with h | h
          · rcases List.mem_cons.mp h with h' | h'
            · rw [h']
              exact Or.inr (by simpa using h2)
            · exact Or.inl h'
          · exact Or.inr h
        case neg =>
          rw [if_neg h2] at hmem₂
          rw [mem_fsRename] at hmem₂
          rcases hmem₂ with hd | ⟨hin, hne⟩
          · exfalso
            exact hnotSrc kv₂ hkv₂ kv' hkv' (hd.trans hop)
          · rcases hGoodR kv₂ hkv₂ hin with h | h
            · rcases List.mem_cons.mp h with h' | h'
              · exact absurd (congrArg Prod.fst h') hne
              · exact Or.inl h'
            · exact Or.inr h

theorem phase2_complete_mem (env : BatchEnv) (x : String) :
    ∀ (rem : List (String × String)) (fsCur : List String)
      (tbl : MetadataTable) (temps res : List (String × String)),
    (∀ kv' ∈ rem, x ≠ kv'.2) →
    (phase2 env rem fsCur tbl temps res).2.2.2.2 = false →
    (x ∈ (phase2 env rem fsCur tbl temps res).1 ↔
      (x ∈ fsCur ∧ ∀ kv' ∈ rem, x ≠ tempPathOf env kv'.1)) := by
  intro rem
  induction rem with
  | nil =>
      intro fsCur tbl temps res _ _
      simp [phase2]
  | cons hd rest ih =>
      intro fsCur tbl temps res hx hthrew
      obtain ⟨o', n'⟩ := hd
      simp only [phase2] at hthrew ⊢
      by_cases hf : env.renameFails.contains (tempPathOf env o', n') = true
      case pos =>
        rw [if_pos hf] at hthrew
        exact absurd hthrew (by simp)
      case neg =>
        rw [if_neg hf] at hthrew ⊢
        rw [ih _ _ _ _ (fun kv' h => hx kv' (List.mem_cons_of_mem _ h)) hthrew]
        rw [mem_fsRename]
        have hxn : x ≠ n' := hx (o', n') (List.mem_cons_self _ _)
        constructor
        · rintro ⟨hd | ⟨hin, hne⟩, hall⟩
          · exact absurd hd hxn
          · refine ⟨hin, ?_⟩
            intro kv' hk
            rcases List.mem_cons.mp hk with h | h
            · rw [h]
              exact hne
            · exact hall kv' h
        · rintro ⟨hin, hall⟩
          exact ⟨Or.inr ⟨hin, hall (o', n') (List.mem_cons_self _ _)⟩,
            fun kv' hk => hall kv' (List.mem_cons_of_mem _ hk)⟩

/-- C4: after any execution of the two-phase batch rename — in particular
after a mid-flight rename failure — a batch file's temporary name is
present on disk only if the rollback rename for that very file threw, so
best-effort rollback restores every temp-renamed file whose rollback
rename succeeds.  Temp-name freshness (guaranteed in the code by the
`Date.now()` stamp) is hypothesised explicitly. -/
theorem batchRename_rollback_no_temp (env : BatchEnv) (fs : List String)
    (tbl : MetadataTable) (videoPaths : List String)
    (Hfresh : ∀ kv ∈ (batchValidation env fs videoPaths).newPaths,
      tempPathOf env kv.1 ∉ fs)
    (Hnodup : ((batchValidation env fs videoPaths).newPaths.map
      (fun kv => tempPathOf env kv.1)).Nodup)
    (HnotTarget : ∀ kv ∈ (batchValidation env fs videoPaths).newPaths,
      ∀ kv' ∈ (batchValidation env fs videoPaths).newPaths,
      tempPathOf env kv.1 ≠ kv'.2)
    (HnotSrc : ∀ kv ∈ (batchValidation env fs videoPaths).newPaths,
      ∀ kv' ∈ (batchValidation env fs videoPaths).newPaths,
      tempPathOf env kv.1 ≠ kv'.1) :
    ∀ kv ∈ (batchValidation env fs videoPaths).newPaths,
      tempPathOf env kv.1 ∈ (batchRenameVideos env fs tbl videoPaths).1 →
      (tempPathOf env kv.1, kv.1) ∈ env.renameFails := by
  intro kv hkv hmem
  by_cases hvp : videoPaths = []
  · subst hvp
    simp [batchValidation, validateAux, initVal] at hkv
  · simp only [batchRenameVideos, if_neg hvp] at hmem
    by_cases herr : (batchValidation env fs videoPaths).errors ≠ []
    · rw [if_pos herr] at hmem
      exact absurd hmem (Hfresh kv hkv)
    · rw [if_neg herr] at hmem
      have hGood₀ : ∀ kv' ∈ (batchValidation env fs videoPaths).newPaths,
          tempPathOf env kv'.1 ∈ fs →
          (tempPathOf env kv'.1, kv'.1) ∈ ([] : List (String × String)) :=
        fun kv' hkv' hm => absurd hm (Hfresh kv' hkv')
      have hShape₀ : ∀ e ∈ ([] : List (String × String)),
          ∃ kv' ∈ (batchValidation env fs videoPaths).newPaths,
            e = (tempPathOf env kv'.1, kv'.1) := by simp
      have hp1 := phase1_preserves env
        (batchValidation env fs videoPaths).newPaths Hnodup
        (batchValidation env fs videoPaths).newPaths fs []
        (fun kv' h => h) hGood₀ hShape₀
      rcases h1eq : phase1 env (batchValidation env fs videoPaths).newPaths fs []
        with ⟨fs₁, temps₁, threw₁⟩
      rw [h1eq] at hp1 hmem
      cases threw₁ with
      | true =>
          exact rollback_clears env
            (batchValidation env fs videoPaths).newPaths HnotSrc temps₁ fs₁
            hp1.2 (fun kv' hkv' hm => Or.inl (hp1.1 kv' hkv' hm)) kv hkv hmem
      | false =>
          dsimp only at hmem
          have hp2 := phase2_preserves env
            (batchValidation env fs videoPaths).newPaths HnotTarget
            (batchValidation env fs videoPaths).newPaths fs₁ tbl temps₁ []
            (fun kv' h => h) hp1.1 hp1.2
          rcases h2eq : phase2 env
              (batchValidation env fs videoPaths).newPaths fs₁ tbl temps₁ []
            with ⟨fs₂, tbl₂, temps₂, res₂, threw₂⟩
          rw [h2eq] at hp2 hmem
          cases threw₂ with
          | true =>
              exact rollback_clears env
                (batchValidation env fs videoPaths).newPaths HnotSrc temps₂ fs₂
                hp2.2 (fun kv' hkv' hm => Or.inl (hp2.1 kv' hkv' hm)) kv hkv hmem
          | false =>
              exfalso
              have hiff := phase2_complete_mem env (tempPathOf env kv.1)
                (batchValidation env fs videoPaths).newPaths fs₁ tbl temps₁ []
                (fun kv' h => HnotTarget kv hkv kv' h) (by rw [h2eq])
              rw [h2eq] at hiff
              exact (hiff.mp hmem).2 kv hkv rfl

/-- Witness for C4: a concrete two-file batch whose second phase-2 rename
throws; the rollback restores the second file and no temporary name
survives on disk. -/
theorem batchRename_rollback_no_temp_witness :
    (∀ kv ∈ (batchValidation envRb pathsRb pathsRb).newPaths,
      tempPathOf envRb kv.1 ∉ pathsRb) ∧
    ((batchValidation envRb pathsRb pathsRb).newPaths.map
      (fun kv => tempPathOf envRb kv.1)).Nodup ∧
    (∀ kv ∈ (batchValidation envRb pathsRb pathsRb).newPaths,
      ∀ kv' ∈ (batchValidation envRb pathsRb pathsRb).newPaths,
      tempPathOf envRb kv.1 ≠ kv'.2) ∧
    (∀ kv ∈ (batchValidation envRb pathsRb pathsRb).newPaths,
      ∀ kv' ∈ (batchValidation envRb pathsRb pathsRb).newPaths,
      tempPathOf envRb kv.1 ≠ kv'.1) ∧
    (∀ kv ∈ (batchValidation envRb pathsRb pathsRb).newPaths,
      tempPathOf envRb kv.1 ∈ (batchRenameVideos envRb pathsRb [] pathsRb).1 →
      (tempPathOf envRb kv.1, kv.1) ∈ envRb.renameFails) :=
  ⟨by decide, by decide, by decide, by decide,
   batchRename_rollback_no_temp envRb pathsRb [] pathsRb
     (by decide) (by decide) (by decide) (by decide)⟩

end ClipNest
